import Mathlib

/-!
# Verification of the what_the_repo PR-analytics pipeline

A shallow embedding, in Lean 4, of the core algorithms of the
`what_the_repo` repository:

* PR-level risk aggregation and banding
  (`git_data_download/github_pr_collector.py`,
  `_calculate_pr_risk_assessment`);
* feature classification (`_classify_pr_as_feature`,
  `_is_documentation_only_pr`);
* the per-PR file-list processing and its large-PR truncation
  (`_get_pr_files`);
* the vector-store loader (`milvus_data_load/load_to_milvus.py`);
* the scalar query adapter (`milvus_client.py`) and the direct/hybrid
  retrieval handlers (`direct_handlers.py`, `hybrid_handlers.py`);
* the natural-language time parser (`time_parse.py`);
* the query router (`router.py`).

Python floats are modelled as rationals (ℚ), Python ints as ℤ/ℕ, epoch
timestamps as ℤ (seconds), and `None`-able values as `Option`.  Regular
expressions used by the time parser and the router are replaced by
hand-rolled matchers over `List Char` that realize exactly the searched
patterns (leftmost search, greedy repetition, word boundaries); the
greedy matchers agree with the backtracking regex semantics on every
pattern used, as argued pattern-by-pattern in the comments.
-/

namespace WhatTheRepo

/-! ## String and character utilities -/

/-- Python `\w`: ASCII letters, digits and underscore (all inputs of
interest are ASCII). -/
def isWordChar (c : Char) : Bool :=
  c.isAlpha || c.isDigit || c == '_'

/-- Python `\s` on the inputs of interest. -/
def isSpaceChar (c : Char) : Bool :=
  c == ' ' || c == '\t' || c == '\n' || c == '\r'

/-- Python `str.lower` (ASCII). -/
def toLowerStr (s : String) : String :=
  String.mk (s.data.map Char.toLower)

/-- Python `str.strip` (whitespace from both ends, ASCII). -/
def stripStr (s : String) : String :=
  String.mk (((s.data.dropWhile isSpaceChar).reverse.dropWhile isSpaceChar).reverse)

/-- `pat.isPrefixOf l` for char lists. -/
def listStartsWith : List Char → List Char → Bool
  | [], _ => true
  | _ :: _, [] => false
  | c :: p, d :: l => c == d && listStartsWith p l

/-- `s.startswith(p)`. -/
def strStartsWith (s p : String) : Bool :=
  listStartsWith p.data s.data

/-- Python substring containment `pat in hay`. -/
def listContainsSub (pat : List Char) : List Char → Bool
  | [] => listStartsWith pat []
  | c :: t => listStartsWith pat (c :: t) || listContainsSub pat t

/-- Python `pat in s` on strings. -/
def strContains (s pat : String) : Bool :=
  listContainsSub pat.toList s.toList

/-! ## Risk aggregation (`_calculate_pr_risk_assessment`)

Per-file inputs carry the fields the aggregation reads:
`risk_assessment` (a dict, `None`/absent modelled as `none`),
`lines_changed`, `additions`, `deletions`, `is_test_file`.  Scores are
rationals standing for the Python floats. -/

/-- The file-level `risk_assessment` dict (the field the PR-level
aggregation reads; `reasons` feed only `risk_reasons`, outside the
properties verified here). -/
structure FileRiskAssessment where
  riskScoreFile : ℚ
deriving Repr, DecidableEq

/-- The slice of a `files_info` entry consumed by
`_calculate_pr_risk_assessment`. -/
structure RiskFile where
  riskAssessment : Option FileRiskAssessment
  linesChanged : ℤ
  additions : ℤ
  deletions : ℤ
  isTestFile : Bool
deriving Repr, DecidableEq

/-- `files_with_risk = [f for f in files_info if f.get('risk_assessment')]`. -/
def filesWithRisk (files : List RiskFile) : List RiskFile :=
  files.filter (fun f => f.riskAssessment.isSome)

/-- `risk_assessment.get('risk_score_file', 0)`. -/
def fileScore (f : RiskFile) : ℚ :=
  (f.riskAssessment.map (fun a => a.riskScoreFile)).getD 0

/-- `total_weight = Σ lines_changed` over `files_with_risk`. -/
def totalWeight (fs : List RiskFile) : ℤ :=
  (fs.map (fun f => f.linesChanged)).sum

/-- `weighted_sum = Σ risk_score · lines_changed` over `files_with_risk`. -/
def weightedSum (fs : List RiskFile) : ℚ :=
  (fs.map (fun f => fileScore f * (f.linesChanged : ℚ))).sum

/-- `max_file_score`, accumulated as `max(max_file_score, risk_score)`
starting from `0`. -/
def maxFileScore (fs : List RiskFile) : ℚ :=
  fs.foldl (fun m f => max m (fileScore f)) 0

/-- `has_hard_condition`: some file has `risk_score >= 8`. -/
def hasHardCondition (fs : List RiskFile) : Bool :=
  fs.any (fun f => decide (8 ≤ fileScore f))

/-- `net_tests_added = Σ (additions − deletions)` over test files. -/
def netTestsAdded (fs : List RiskFile) : ℤ :=
  (fs.map (fun f => if f.isTestFile then f.additions - f.deletions else 0)).sum

/-- The base PR risk score: weighted average when `total_weight > 0`,
otherwise the plain mean of the scores (`0` when there are none). -/
def prBaseScore (fs : List RiskFile) : ℚ :=
  if 0 < totalWeight fs then
    weightedSum fs / (totalWeight fs : ℚ)
  else if fs.length ≠ 0 then
    (fs.map fileScore).sum / (fs.length : ℚ)
  else 0

/-- The raw (unrounded) PR risk score: base score followed by the three
PR-level rules, applied in the source order. -/
def prRawScore (files : List RiskFile) : ℚ :=
  let fs := filesWithRisk files
  let base := prBaseScore fs
  let s1 := if hasHardCondition fs then max base 8 else base
  let s2 := if 8 ≤ maxFileScore fs then min (s1 + 1/2) 10 else s1
  let s3 := if 0 < netTestsAdded fs ∧ maxFileScore fs < 8
            then max (s2 - 1/2) 0 else s2
  s3

/-- The risk-band chain (`<= 3.0` low, `<= 6.9` medium, else high),
applied to the *unrounded* score as in the source. -/
def riskBandOf (s : ℚ) : String :=
  if s ≤ 3 then "low" else if s ≤ 69/10 then "medium" else "high"

/-- Round-half-even on rationals (the idealization of Python `round`). -/
def roundHalfEven (q : ℚ) : ℤ :=
  let f := ⌊q⌋
  let r := q - (f : ℚ)
  if r < 1/2 then f
  else if 1/2 < r then f + 1
  else if f % 2 = 0 then f else f + 1

/-- Python `round(x, 2)` idealized on rationals. -/
def round2 (q : ℚ) : ℚ :=
  (roundHalfEven (100 * q) : ℚ) / 100

/-- The PR-level risk assessment record returned by
`_calculate_pr_risk_assessment` (the fields the claims speak about;
`risk_reasons` and `calculation_details` are outside their scope). -/
structure PrRiskResult where
  riskScore : ℚ
  riskBand : String
  highRisk : Bool
deriving Repr, DecidableEq

/-- `_calculate_pr_risk_assessment`: the early return for an empty
`files_with_risk`, else the rounded score, the band and the high-risk
flag—the latter two computed from the unrounded score. -/
def calculatePrRiskAssessment (files : List RiskFile) : PrRiskResult :=
  if (filesWithRisk files).isEmpty then
    { riskScore := 0, riskBand := "low", highRisk := false }
  else
    let s := prRawScore files
    { riskScore := round2 s, riskBand := riskBandOf s, highRisk := decide (7 ≤ s) }

/-- Modelled from the spec: `base = (Σ sᵢ·wᵢ) / (Σ wᵢ)` if `Σ wᵢ > 0`,
else the plain mean of the `sᵢ` (rational division by zero is zero, so
the empty case is harmless). -/
def specBaseScore (fs : List RiskFile) : ℚ :=
  if 0 < (fs.map (fun f => f.linesChanged)).sum then
    (fs.map (fun f => fileScore f * (f.linesChanged : ℚ))).sum
      / (((fs.map (fun f => f.linesChanged)).sum : ℤ) : ℚ)
  else
    (fs.map fileScore).sum / (fs.length : ℚ)

/-- Modelled from the spec (§4.3 of the specification): the PR risk
rubric stated in the spec's own vocabulary.  `base` as the
weight-average (mean on zero weight), then: if some file scores ≥ 8 the
score is `min (max base 8 + 0.5) 10`; otherwise if net test lines added
is positive and every file scores < 8 the score is `max (base − 0.5) 0`;
otherwise `base`. -/
def specPrRiskScore (files : List RiskFile) : ℚ :=
  let fs := filesWithRisk files
  let base := specBaseScore fs
  if fs.any (fun f => decide (8 ≤ fileScore f)) then
    min (max base 8 + 1/2) 10
  else if 0 < netTestsAdded fs ∧ fs.all (fun f => decide (fileScore f < 8)) then
    max (base - 1/2) 0
  else
    base

/-! ## File classification helpers (`github_pr_collector.py`) -/

/-- `_get_file_extension`: `'.' + filename.split('.')[-1]` when the name
contains a dot, else the empty string. -/
def getFileExtension (filename : String) : String :=
  if filename.data.contains '.' then
    String.mk ('.' :: (filename.data.reverse.takeWhile (fun c => c != '.')).reverse)
  else ""

/-- `_is_documentation_file`'s extension set. -/
def docExtensions : List String :=
  [".md", ".rst", ".txt", ".pdf", ".doc", ".docx"]

/-- `_is_documentation_file`'s name-pattern list. -/
def docPatterns : List String :=
  ["readme", "license", "changelog", "contributing", "docs/", "documentation/"]

/-- `_is_documentation_file`. -/
def isDocumentationFile (filename : String) : Bool :=
  let fl := toLowerStr filename
  docExtensions.contains (toLowerStr (getFileExtension filename))
    || docPatterns.any (fun p => strContains fl p)

/-- `_is_test_file`'s pattern list. -/
def testPatterns : List String :=
  ["test", "spec", "specs", "test_", "_test", "tests/", "specs/"]

/-- `_is_test_file`. -/
def isTestFile (filename : String) : Bool :=
  testPatterns.any (fun p => strContains (toLowerStr filename) p)

/-- `_is_binary_file`'s extension set. -/
def binaryExtensions : List String :=
  [".exe", ".dll", ".so", ".dylib", ".bin", ".dat", ".zip",
   ".tar", ".gz", ".rar", ".7z", ".png", ".jpg", ".jpeg",
   ".gif", ".bmp", ".ico", ".pdf", ".doc", ".docx", ".xls",
   ".xlsx", ".ppt", ".pptx", ".mp3", ".mp4", ".avi", ".mov"]

/-- `_is_binary_file`. -/
def isBinaryFile (filename : String) : Bool :=
  binaryExtensions.contains (toLowerStr (getFileExtension filename))

/-- `_is_config_file`'s pattern list. -/
def configPatterns : List String :=
  ["config", "conf", "ini", "cfg", "properties", "env",
   "dockerfile", "docker-compose", "package.json", "requirements.txt",
   "pom.xml", "build.gradle", "cargo.toml", "go.mod", "composer.json"]

/-- `_is_config_file`. -/
def isConfigFile (filename : String) : Bool :=
  configPatterns.any (fun p => strContains (toLowerStr filename) p)

/-- `_detect_language`'s extension → language map. -/
def languageMap : List (String × String) :=
  [(".py", "Python"), (".js", "JavaScript"), (".ts", "TypeScript"), (".java", "Java"),
   (".cpp", "C++"), (".c", "C"), (".cs", "C#"), (".php", "PHP"), (".rb", "Ruby"),
   (".go", "Go"), (".rs", "Rust"), (".swift", "Swift"), (".kt", "Kotlin"),
   (".scala", "Scala"), (".clj", "Clojure"), (".hs", "Haskell"), (".ml", "OCaml"),
   (".html", "HTML"), (".css", "CSS"), (".scss", "SCSS"), (".sass", "Sass"),
   (".sql", "SQL"), (".r", "R"), (".m", "MATLAB"), (".sh", "Shell"),
   (".yaml", "YAML"), (".yml", "YAML"), (".json", "JSON"), (".xml", "XML"),
   (".md", "Markdown"), (".txt", "Text"), (".rst", "reStructuredText"),
   (".dockerfile", "Dockerfile"), (".dockerignore", "Docker"),
   (".gitignore", "Git"), (".gitattributes", "Git")]

/-- `_detect_language`. -/
def detectLanguage (filename : String) : String :=
  ((languageMap.find? (fun kv => kv.1 = toLowerStr (getFileExtension filename))).map
    (fun kv => kv.2)).getD "Unknown"

/-! ## Feature classification (`_classify_pr_as_feature`,
`_is_documentation_only_pr`) -/

/-- The allow-label bucket. -/
def allowLabels : List String :=
  ["feature", "enhancement", "new-feature", "type:feature",
   "type:enhancement", "improvement", "addition", "feat"]

/-- The exclude-label bucket. -/
def excludeLabels : List String :=
  ["bug", "bugfix", "fix", "hotfix", "regression", "docs",
   "documentation", "refactor", "cleanup", "tech-debt",
   "chore", "maintenance", "ci", "build", "infra", "test",
   "tests", "qa", "revert", "security-fix", "backport"]

/-- `_is_documentation_only_pr`: `False` on an empty file list, else
every file classified as documentation. -/
def isDocumentationOnlyPr (filenames : List String) : Bool :=
  if filenames.isEmpty then false
  else filenames.all isDocumentationFile

/-- `has_allow_label`: some lowered label name is in the allow
bucket. -/
def hasAllowLabel (labelNames : List String) : Bool :=
  (labelNames.map toLowerStr).any (fun l => allowLabels.contains l)

/-- `has_exclude_label`: some lowered label name is in the exclude
bucket. -/
def hasExcludeLabel (labelNames : List String) : Bool :=
  (labelNames.map toLowerStr).any (fun l => excludeLabels.contains l)

/-- `is_feature`: an allow label, or merged with no exclude label and
not documentation-only. -/
def isFeaturePr (labelNames : List String) (mergedAt : Option String)
    (filenames : List String) : Bool :=
  hasAllowLabel labelNames
    || (mergedAt.isSome && !hasExcludeLabel labelNames
        && !isDocumentationOnlyPr filenames)

/-- `_classify_pr_as_feature`.  Arguments: the PR's label names, its
`merged_at` (the raw API value, `None`-able), its title and the
filenames of `files_info`.  Returns the feature description or `none`. -/
def classifyPrAsFeature (labelNames : List String) (mergedAt : Option String)
    (title : String) (filenames : List String) : Option String :=
  if !isFeaturePr labelNames mergedAt filenames then none
  else
    let t := stripStr title
    if t ≠ "" then some t
    else some "Feature implementation"

/-- The feature string as stored by the loader
(`_prepare_pr_data`: `pr_data.get('feature', '') or ''`). -/
def storedFeature (labelNames : List String) (mergedAt : Option String)
    (title : String) (filenames : List String) : String :=
  (classifyPrAsFeature labelNames mergedAt title filenames).getD ""

/-! ## Per-PR file list processing (`_get_pr_files`) -/

/-- One entry of the forge's `files` response, as read by
`_get_pr_files`. -/
structure FileData where
  filename : String
  status : String
  additions : ℤ
  deletions : ℤ
  changes : ℤ
  patch : String
deriving Repr, DecidableEq

/-- The processed per-file record built by `_get_pr_files` (the fields
derived from the raw entry; URLs/sha are omitted as opaque strings).
The risk assessment comes from the LLM gateway, passed here as a
function parameter since it is an external call. -/
structure ProcessedFile where
  filename : String
  status : String
  additions : ℤ
  deletions : ℤ
  linesChanged : ℤ
  language : String
  isBinary : Bool
  isConfigFile : Bool
  isDocumentation : Bool
  isTestFile : Bool
  netLines : ℤ
  riskAssessment : Option FileRiskAssessment
deriving Repr, DecidableEq

/-- The per-entry transformation of `_get_pr_files`. -/
def mkProcessedFile (assess : FileData → Option FileRiskAssessment)
    (fd : FileData) : ProcessedFile :=
  { filename := fd.filename
    status := fd.status
    additions := fd.additions
    deletions := fd.deletions
    linesChanged := fd.changes
    language := detectLanguage fd.filename
    isBinary := isBinaryFile fd.filename
    isConfigFile := isConfigFile fd.filename
    isDocumentation := isDocumentationFile fd.filename
    isTestFile := isTestFile fd.filename
    netLines := fd.additions - fd.deletions
    riskAssessment := assess fd }

/-- `_get_pr_files` after a successful fetch: the large-PR guard
(`if len(files_data) > 1000: files_data = files_data[:100]`) followed by
the per-entry processing loop. -/
def processPrFiles (assess : FileData → Option FileRiskAssessment)
    (filesData : List FileData) : List ProcessedFile :=
  let fd := if 1000 < filesData.length then filesData.take 100 else filesData
  fd.map (mkProcessedFile assess)

/-! ## Vector-store loader (`milvus_data_load/load_to_milvus.py`) -/

/-- The PR row stored in the PR collection (the scalar fields the
claims speak about; the embedding vector and the remaining text fields
are orthogonal to keying and risk and are omitted). -/
structure PrRecord where
  repoName : String
  prId : ℤ
  prNumber : ℤ
  title : String
  authorName : String
  createdAt : ℤ
  mergedAt : ℤ
  isMerged : Bool
  isClosed : Bool
  additions : ℤ
  deletions : ℤ
  changedFiles : ℤ
  feature : String
  riskScore : ℚ
  riskBand : String
  highRisk : Bool
deriving Repr, DecidableEq

/-- The slice of an enriched PR JSON record read by `_prepare_pr_data`
(timestamps already run through `_parse_datetime`, which maps `None`
to `0`). -/
structure PrJson where
  repoName : String
  prId : ℤ
  prNumber : ℤ
  title : String
  authorName : String
  createdAt : ℤ
  mergedAt : ℤ
  isMerged : Bool
  isClosed : Bool
  additions : ℤ
  deletions : ℤ
  changedFiles : ℤ
  feature : Option String
  prRiskAssessment : Option PrRiskResult
deriving Repr, DecidableEq

/-- `_prepare_pr_data`: field extraction with the `None` fallbacks of
the source (`feature or ''`, risk defaults `0.0 / 'low' / False`). -/
def preparePrData (p : PrJson) : PrRecord :=
  { repoName := p.repoName
    prId := p.prId
    prNumber := p.prNumber
    title := p.title
    authorName := p.authorName
    createdAt := p.createdAt
    mergedAt := p.mergedAt
    isMerged := p.isMerged
    isClosed := p.isClosed
    additions := p.additions
    deletions := p.deletions
    changedFiles := p.changedFiles
    feature := p.feature.getD ""
    riskScore := ((p.prRiskAssessment.map (fun r => r.riskScore)).getD 0)
    riskBand := ((p.prRiskAssessment.map (fun r => r.riskBand)).getD "low")
    highRisk := ((p.prRiskAssessment.map (fun r => r.highRisk)).getD false) }

/-- The PR collection as created by `_create_pr_collection`: its
primary key is a dedicated `primary_key` INT64 field with
`auto_id=True`, so the store assigns a fresh key to every inserted row.
Modelled as the next fresh key plus the keyed rows in insertion
order. -/
structure PrCollection where
  nextId : ℕ
  rows : List (ℕ × PrRecord)
deriving Repr, DecidableEq

/-- External store semantics of `collection.insert([record])` on an
`auto_id` collection: append the row under a fresh auto-generated
key. -/
def insertPr (c : PrCollection) (r : PrRecord) : PrCollection :=
  { nextId := c.nextId + 1, rows := c.rows ++ [(c.nextId, r)] }

/-- `_insert_pr_batch`: one `collection.insert([record])` per record of
the batch (vector re-validation does not affect the scalar fields). -/
def insertPrBatch (c : PrCollection) (batch : List PrRecord) : PrCollection :=
  batch.foldl insertPr c

/-- The batching loop of `load_data`: accumulate prepared records,
flush a batch once it reaches `batchSize`, flush the remainder at the
end. -/
def loadDataGo (batchSize : ℕ) : PrCollection → List PrRecord → List PrJson → PrCollection
  | c, batch, [] => if batch.isEmpty then c else insertPrBatch c batch
  | c, batch, p :: ps =>
      let batch' := batch ++ [preparePrData p]
      if batchSize ≤ batch'.length then loadDataGo batchSize (insertPrBatch c batch') [] ps
      else loadDataGo batchSize c batch' ps

/-- `load_data` restricted to the PR collection (the file collection is
loaded by the same pattern). -/
def loadData (c : PrCollection) (prs : List PrJson) (batchSize : ℕ) : PrCollection :=
  loadDataGo batchSize c [] prs

/-- The number of rows of a collection carrying a given logical key
`(repo_name, pr_id)`. -/
def rowsWithKey (c : PrCollection) (repoName : String) (prId : ℤ) : ℕ :=
  (c.rows.filter (fun x => x.2.repoName == repoName && x.2.prId == prId)).length

/-! ## Scalar query adapter (`milvus_client.py`) -/

/-- External store semantics of `collection.query(expr, fields, limit)`:
the rows matching the filter, truncated to `limit`.  `query_prs` and
`query_files` both pass the hard-coded `limit=1000`. -/
def milvusQuery {α : Type} (coll : List α) (pred : α → Bool) (limit : ℕ) : List α :=
  (coll.filter pred).take limit

/-- `MilvusClient.query_prs` (scalar-only PR query, `limit=1000`). -/
def queryPrs (coll : List PrRecord) (pred : PrRecord → Bool) : List PrRecord :=
  milvusQuery coll pred 1000

/-- The file row stored in the file collection (the scalar fields the
handlers read). -/
structure FileRecord where
  repoName : String
  prNumber : ℤ
  prId : ℤ
  fileId : String
  language : String
  linesChanged : ℤ
  isBinary : Bool
  mergedAt : ℤ
  riskScoreFile : ℚ
deriving Repr, DecidableEq

/-- `MilvusClient.query_files` (scalar-only file query, `limit=1000`). -/
def queryFiles (coll : List FileRecord) (pred : FileRecord → Bool) : List FileRecord :=
  milvusQuery coll pred 1000

/-! ## Direct handlers (`direct_handlers.py`) -/

/-- The seen-set deduplication loop of `direct_prs_list` /
`direct_features_list`: keep the first row for each `pr_id`. -/
def dedupeByPrId : List ℤ → List PrRecord → List PrRecord
  | _, [] => []
  | seen, r :: rs =>
      if seen.contains r.prId then dedupeByPrId seen rs
      else r :: dedupeByPrId (r.prId :: seen) rs

/-- Stable insertion for a descending sort by `key` (ties keep the
original order), matching Python `list.sort(key=…, reverse=True)`. -/
def insertDescBy {α β : Type} [LinearOrder β] (key : α → β) (x : α) : List α → List α
  | [] => [x]
  | y :: ys => if key x < key y then y :: insertDescBy key x ys else x :: y :: ys

/-- Stable descending sort by `key`. -/
def sortDescBy {α β : Type} [LinearOrder β] (key : α → β) : List α → List α
  | [] => []
  | x :: xs => insertDescBy key x (sortDescBy key xs)

/-- The summary statistics computed by `direct_prs_list` from the
deduplicated rows. -/
structure PrsSummary where
  prsMerged : ℕ
  featuresShipped : ℕ
  highRiskPrs : ℕ
deriving Repr, DecidableEq

/-- `direct_prs_list`: scalar query, dedupe by `pr_id`, sort (riskiest
by risk score, largest by additions+deletions+changed_files, else by
merge date), truncate to `limit`; summary totals from the deduplicated
rows. -/
def directPrsList (coll : List PrRecord) (pred : PrRecord → Bool)
    (limit : ℕ) (sortByLargest sortByRiskiest : Bool) :
    List PrRecord × PrsSummary :=
  let rows := queryPrs coll pred
  let uniqueRows := dedupeByPrId [] rows
  let sorted :=
    if sortByRiskiest then sortDescBy (fun r => r.riskScore) uniqueRows
    else if sortByLargest then
      sortDescBy (fun r => r.additions + r.deletions + r.changedFiles) uniqueRows
    else sortDescBy (fun r => r.mergedAt) uniqueRows
  (sorted.take limit,
   { prsMerged := uniqueRows.length
     featuresShipped := (uniqueRows.filter (fun r => (stripStr r.feature) ≠ "")).length
     highRiskPrs := (uniqueRows.filter (fun r => r.highRisk)).length })

/-- `direct_features_list`: scalar query, dedupe by `pr_id`, keep rows
with a non-blank feature, sort by merge date descending, truncate. -/
def directFeaturesList (coll : List PrRecord) (pred : PrRecord → Bool)
    (limit : ℕ) : List PrRecord :=
  let rows := queryPrs coll pred
  let uniqueRows := dedupeByPrId [] rows
  let featureRows := uniqueRows.filter (fun r => (stripStr r.feature) ≠ "")
  (sortDescBy (fun r => r.mergedAt) featureRows).take limit

/-- `direct_top_prs_by_risk`: scalar query, sort by risk score
descending, truncate to `limit` — with no deduplication step. -/
def directTopPrsByRisk (coll : List PrRecord) (pred : PrRecord → Bool)
    (limit : ℕ) : List PrRecord :=
  let rows := queryPrs coll pred
  (sortDescBy (fun r => r.riskScore) rows).take limit

/-- The counts returned by `direct_pr_count`. -/
structure PrCountResult where
  totalPrs : ℕ
  mergedPrs : ℕ
  closedPrs : ℕ
  featurePrs : ℕ
  highRiskPrs : ℕ
deriving Repr, DecidableEq

/-- `direct_pr_count`: counts over the rows returned by the scalar
query. -/
def directPrCount (coll : List PrRecord) (pred : PrRecord → Bool) :
    PrCountResult :=
  let rows := queryPrs coll pred
  { totalPrs := rows.length
    mergedPrs := (rows.filter (fun r => r.isMerged)).length
    closedPrs := (rows.filter (fun r => r.isClosed)).length
    featurePrs := (rows.filter (fun r => (stripStr r.feature) ≠ "")).length
    highRiskPrs := (rows.filter (fun r => r.highRisk)).length }

/-- The result of `direct_top_file_by_lines`. -/
structure TopFileResult where
  fileId : String
  totalLinesChanged : ℤ
  prCount : ℕ
deriving Repr, DecidableEq

/-- The distinct truthy `file_id`s of the queried rows, in first-seen
order (the `defaultdict` keys). -/
def fileIdsInOrder : List String → List FileRecord → List String
  | seen, [] => seen.reverse
  | seen, r :: rs =>
      if r.fileId == "" || seen.contains r.fileId then fileIdsInOrder seen rs
      else fileIdsInOrder (r.fileId :: seen) rs

/-- Total `lines_changed` accumulated for one `file_id`. -/
def fileTotalLines (rows : List FileRecord) (fid : String) : ℤ :=
  ((rows.filter (fun r => r.fileId == fid)).map (fun r => r.linesChanged)).sum

/-- Number of queried rows contributing to one `file_id`. -/
def filePrCount (rows : List FileRecord) (fid : String) : ℕ :=
  (rows.filter (fun r => r.fileId == fid)).length

/-- Python `max(iterable, key=…)`: the first element attaining the
maximum key. -/
def argmaxBy {α : Type} (key : α → ℤ) : List α → Option α
  | [] => none
  | x :: xs =>
      match argmaxBy key xs with
      | none => some x
      | some y => if key y > key x then some y else some x

/-- `direct_top_file_by_lines`: aggregate `lines_changed` per truthy
`file_id` over the queried rows and return the argmax. -/
def directTopFileByLines (coll : List FileRecord) (pred : FileRecord → Bool) :
    Option TopFileResult :=
  let rows := queryFiles coll pred
  if rows.isEmpty then none
  else
    let ids := fileIdsInOrder [] rows
    (argmaxBy (fileTotalLines rows) ids).map
      (fun fid => { fileId := fid
                    totalLinesChanged := fileTotalLines rows fid
                    prCount := filePrCount rows fid })

/-! ## Hybrid features handler (`hybrid_handlers.py`) -/

/-- A PR hit returned by the vector search (`search_prs`), carrying the
ANN distance. -/
structure PrHit where
  prId : ℤ
  prNumber : ℤ
  mergedAt : ℤ
  distance : ℚ
deriving Repr, DecidableEq

/-- The lexicographic ascending order on `(_distance, -merged_at)`
used by `hybrid_features`. -/
def hitLt (a b : PrHit) : Prop :=
  a.distance < b.distance ∨ (a.distance = b.distance ∧ -a.mergedAt < -b.mergedAt)

instance : DecidableRel hitLt := fun a b => by
  unfold hitLt; infer_instance

/-- Stable insertion for the ascending sort on `(distance, -merged_at)`. -/
def insertHit (x : PrHit) : List PrHit → List PrHit
  | [] => [x]
  | y :: ys => if hitLt y x then y :: insertHit x ys else x :: y :: ys

/-- Stable ascending sort on `(distance, -merged_at)`. -/
def sortHits : List PrHit → List PrHit
  | [] => []
  | x :: xs => insertHit x (sortHits xs)

/-- `hybrid_features` after the vector search: the hits are sorted by
`(distance asc, merged_at desc)` and returned as-is — with no
deduplication step. -/
def hybridFeatures (hits : List PrHit) : List PrHit :=
  sortHits hits

/-! ## Scalar filter expression building (`direct_handlers.py`) -/

/-- The filter expression built by `direct_prs_list`: the interpolated
parts joined with `" and "`; no escaping is applied to the interpolated
strings. -/
def buildPrsListExpr (repo : String) (start finish : ℤ)
    (author : Option String) (prNumber : Option ℤ) : String :=
  let exprParts :=
    ["merged_at >= " ++ toString start,
     "merged_at <= " ++ toString finish,
     "is_merged == true",
     "repo_name == \"" ++ repo ++ "\""]
    ++ (match author with
        | some a => ["author_name == \"" ++ a ++ "\""]
        | none => [])
    ++ (match prNumber with
        | some n => ["pr_number == " ++ toString n]
        | none => [])
  String.intercalate " and " exprParts

/-- Scan for the first occurrence of `key` in `s` and return the text
that follows it. -/
def findAfterSeq (key : List Char) : List Char → Option (List Char)
  | [] => if listStartsWith key [] then some (([] : List Char).drop key.length) else none
  | c :: t =>
      if listStartsWith key (c :: t) then some ((c :: t).drop key.length)
      else findAfterSeq key t

/-- Collect the characters of a double-quoted literal up to the closing
quote (`none` when the quote is never closed). -/
def takeUntilQuote : List Char → Option (List Char)
  | [] => none
  | c :: t =>
      if c == '"' then some []
      else (takeUntilQuote t).map (fun l => c :: l)

/-- Modelled from the spec: the vector store parses string literals in
scalar filter expressions as double-quoted runs — the literal compared
against `repo_name` is the text between the quote that follows
`repo_name == ` and the next double quote.  (The store itself is an
external system; the spec fixes only this quoting convention.) -/
def extractRepoNameLiteral (expr : String) : Option String :=
  match findAfterSeq ("repo_name == \"".toList) expr.toList with
  | none => none
  | some rest => (takeUntilQuote rest).map (fun l => String.mk l)

/-! ## Pattern matchers

The time parser and the router search Python regular expressions.  Every
pattern they use is a sequence of: literal text, an optional literal
(`s?`), whitespace runs (`\s+`, `\s*`), character-class runs (`\d+`,
`\w+`, `[a-zA-Z0-9_-]+`, `[a-zA-Z0-9_.-]+`), fixed-width digit groups
(`\d{4}`, `\d{1,2}`) and literal alternations — possibly wrapped in
word boundaries (`\b`).  The greedy, non-backtracking matchers below
coincide with the regex semantics on these patterns: every greedy item
is followed by an item that cannot consume the characters the greedy
item takes (whitespace after a word run, a literal after a digit run,
and so on), so the regex's backtracking never changes the outcome. -/

/-- Author-name character class `[a-zA-Z0-9_-]`. -/
def isAuthorChar (c : Char) : Bool :=
  c.isAlpha || c.isDigit || c == '_' || c == '-'

/-- Filename character class `[a-zA-Z0-9_.-]`. -/
def isFileChar (c : Char) : Bool :=
  isAuthorChar c || c == '.'

/-- `\d`. -/
def isDigitChar (c : Char) : Bool :=
  c.isDigit

/-- One pattern item. -/
inductive Tok where
  | lit (w : String)
  | opt (w : String)
  | ws
  | wsOpt
  | many1 (p : Char → Bool)
  | exactly4 (p : Char → Bool)
  | upTo2 (p : Char → Bool)
  | alts (ws : List String)

/-- Match a literal and return the rest. -/
def litChomp : List Char → List Char → Option (List Char)
  | [], s => some s
  | _ :: _, [] => none
  | c :: w, d :: s => if c == d then litChomp w s else none

/-- Match exactly four `p`-characters. -/
def chomp4 (p : Char → Bool) : List Char → Option (List Char)
  | a :: b :: c :: d :: t => if p a && p b && p c && p d then some t else none
  | _ => none

/-- Match one pattern item and return the rest. -/
def matchTokRem : Tok → List Char → Option (List Char)
  | .lit w, s => litChomp w.toList s
  | .opt w, s =>
      match litChomp w.toList s with
      | some r => some r
      | none => some s
  | .ws, s =>
      match s with
      | [] => none
      | c :: t => if isSpaceChar c then some (t.dropWhile isSpaceChar) else none
  | .wsOpt, s => some (s.dropWhile isSpaceChar)
  | .many1 p, s =>
      match s with
      | [] => none
      | c :: t => if p c then some (t.dropWhile p) else none
  | .exactly4 p, s => chomp4 p s
  | .upTo2 p, s =>
      match s with
      | [] => none
      | [c] => if p c then some [] else none
      | c :: d :: t =>
          if p c then (if p d then some t else some (d :: t)) else none
  | .alts ws, s => ws.findSome? (fun w => litChomp w.toList s)

/-- Match a pattern at the head of the input and return the rest. -/
def matchToksRem : List Tok → List Char → Option (List Char)
  | [], s => some s
  | t :: ts, s =>
      match matchTokRem t s with
      | some r => matchToksRem ts r
      | none => none

/-- `re.search` without boundaries: the leftmost match's text
(group 0). -/
def searchToks (toks : List Tok) : List Char → Option (List Char)
  | [] => (matchToksRem toks []).map (fun _ => [])
  | c :: t =>
      match matchToksRem toks (c :: t) with
      | some r => some ((c :: t).take ((c :: t).length - r.length))
      | none => searchToks toks t

/-- Recognition-only `re.search`. -/
def searchToksB (toks : List Tok) (s : String) : Bool :=
  (searchToks toks s.toList).isSome

/-- A `\b pattern \b` match at the current position (every pattern so
wrapped starts and ends with a word character). -/
def boundedMatchAt (toks : List Tok) (prevIsWord : Bool) (s : List Char) : Bool :=
  !prevIsWord &&
    (match matchToksRem toks s with
     | some r =>
         match r with
         | [] => true
         | c :: _ => !isWordChar c
     | none => false)

/-- Scan for a `\b pattern \b` match, tracking the preceding
character's word-ness. -/
def searchBoundedFrom (toks : List Tok) : Bool → List Char → Bool
  | prevW, [] => boundedMatchAt toks prevW []
  | prevW, c :: t => boundedMatchAt toks prevW (c :: t) || searchBoundedFrom toks (isWordChar c) t

/-- `re.search` of `\b pattern \b`. -/
def searchBounded (toks : List Tok) (s : String) : Bool :=
  searchBoundedFrom toks false s.toList

/-- `re.search` of `\b(alt₁|alt₂|…)\b`, recognition only. -/
def searchBoundedAlt (alts : List (List Tok)) (s : String) : Bool :=
  alts.any (fun a => searchBounded a s)

/-- Leftmost-position capture search: apply the capturing matcher at
every position, left to right. -/
def searchCapture {γ : Type} (f : List Char → Option γ) : List Char → Option γ
  | [] => f []
  | c :: t =>
      match f (c :: t) with
      | some v => some v
      | none => searchCapture f t

/-- Capture a `p`-character run (`p+`, greedy). -/
def takeChars1 (p : Char → Bool) (s : List Char) : Option (List Char × List Char) :=
  let tk := s.takeWhile p
  if tk.isEmpty then none else some (tk, s.dropWhile p)

/-- `\s+` without capture. -/
def chompWs1 (s : List Char) : Option (List Char) :=
  match s with
  | [] => none
  | c :: t => if isSpaceChar c then some (t.dropWhile isSpaceChar) else none

/-- Digit run → number. -/
def digitsToNat (ds : List Char) : ℕ :=
  ds.foldl (fun a c => a * 10 + (c.toNat - 48)) 0

/-- Capture `\d+` (greedy). -/
def takeDigits1 (s : List Char) : Option (ℕ × List Char) :=
  (takeChars1 isDigitChar s).map (fun x => (digitsToNat x.1, x.2))

/-- Capture `\d{1,2}` (greedy). -/
def takeDigitsUpTo2 (s : List Char) : Option (ℕ × List Char) :=
  match s with
  | [] => none
  | [c] => if isDigitChar c then some (digitsToNat [c], []) else none
  | c :: d :: t =>
      if isDigitChar c then
        (if isDigitChar d then some (digitsToNat [c, d], t)
         else some (digitsToNat [c], d :: t))
      else none

/-- Capture `\d{4}`. -/
def takeDigits4 (s : List Char) : Option (ℕ × List Char) :=
  match s with
  | a :: b :: c :: d :: t =>
      if isDigitChar a && isDigitChar b && isDigitChar c && isDigitChar d then
        some (digitsToNat [a, b, c, d], t)
      else none
  | _ => none

/-- Capture a literal alternation: the first alternative (in pattern
order) that matches at this position. -/
def takeAltLit (ws : List String) (s : List Char) : Option (String × List Char) :=
  ws.findSome? (fun w => (litChomp w.toList s).map (fun r => (w, r)))

/-! ## Civil-calendar arithmetic

`datetime` values are modelled as epoch seconds (ℤ); the civil-calendar
conversions below are the standard days-from-civil / civil-from-days
algorithms. -/

/-- Gregorian leap year. -/
def isLeapYear (y : ℤ) : Bool :=
  y % 4 == 0 && (y % 100 != 0 || y % 400 == 0)

/-- `calendar.monthrange(y, m)[1]`. -/
def daysInMonth (y : ℤ) (m : ℕ) : ℕ :=
  if m = 2 then (if isLeapYear y then 29 else 28)
  else if m = 4 ∨ m = 6 ∨ m = 9 ∨ m = 11 then 30
  else 31

/-- Days from the epoch of the civil date `y-m-d`. -/
def daysFromCivil (y : ℤ) (m d : ℕ) : ℤ :=
  let y' := if m ≤ 2 then y - 1 else y
  let era := Int.fdiv y' 400
  let yoe := y' - era * 400
  let mp := (m + 9) % 12
  let doy := (153 * mp + 2) / 5 + (d - 1)
  let doe := yoe * 365 + Int.fdiv yoe 4 - Int.fdiv yoe 100 + (doy : ℤ)
  era * 146097 + doe - 719468

/-- Civil date `(y, m, d)` of an epoch day count. -/
def civilFromDays (z : ℤ) : ℤ × ℕ × ℕ :=
  let z' := z + 719468
  let era := Int.fdiv z' 146097
  let doe := (z' - era * 146097).toNat
  let yoe := (doe - doe / 1460 + doe / 36524 - doe / 146096) / 365
  let y := (yoe : ℤ) + era * 400
  let doy := doe - (365 * yoe + yoe / 4 - yoe / 100)
  let mp := (5 * doy + 2) / 153
  let d := doy - (153 * mp + 2) / 5 + 1
  let m := if mp < 10 then mp + 3 else mp - 9
  (if m ≤ 2 then y + 1 else y, m, d)

/-- Epoch day of an epoch-second timestamp. -/
def epochDay (t : ℤ) : ℤ :=
  Int.fdiv t 86400

/-- `replace(hour=0, minute=0, second=0, microsecond=0)`. -/
def startOfDay (t : ℤ) : ℤ :=
  86400 * epochDay t

/-- Python `datetime.weekday()`: Monday = 0 (the epoch day 0 was a
Thursday). -/
def weekdayOf (t : ℤ) : ℤ :=
  (epochDay t + 3) % 7

/-- Civil date of a timestamp. -/
def civilOfEpoch (t : ℤ) : ℤ × ℕ × ℕ :=
  civilFromDays (epochDay t)

/-! ## Time parser (`time_parse.py`) -/

/-- `get_default_time_window_datetime` (14 days ending now). -/
def getDefaultTimeWindow (now : ℤ) : ℤ × ℤ :=
  (now - 14 * 86400, now)

/-- `get_all_time_window` (5 years = 1825 days ending now). -/
def getAllTimeWindow (now : ℤ) : ℤ × ℤ :=
  (now - 1825 * 86400, now)

/-- `get_author_default_time_window` (90 days ending now) — defined by
the source but never invoked by `parse_time`. -/
def getAuthorDefaultTimeWindow (now : ℤ) : ℤ × ℤ :=
  (now - 90 * 86400, now)

/-- `get_risk_default_time_window` (730 days ending now) — defined by
the source but never invoked by `parse_time`. -/
def getRiskDefaultTimeWindow (now : ℤ) : ℤ × ℤ :=
  (now - 730 * 86400, now)

/-- The keyword list of `has_time_expression`, each searched as
`\b keyword \b`. -/
def timeKeywords : List String :=
  ["last", "yesterday", "today", "this week", "this month", "this year",
   "in", "during", "since", "from", "to", "between",
   "january", "february", "march", "april", "may", "june",
   "july", "august", "september", "october", "november", "december",
   "jan", "feb", "mar", "apr", "jun", "jul", "aug", "sep", "oct", "nov", "dec"]

/-- `has_time_expression`. -/
def hasTimeExpression (q : String) : Bool :=
  timeKeywords.any (fun w => searchBounded [Tok.lit w] (toLowerStr q))

/-- Time units of the `last …` patterns. -/
def timeUnits : List String := ["day", "week", "month", "year"]

/-- Written numbers of the `last …` patterns. -/
def writtenNumbers : List String :=
  ["one", "two", "three", "four", "five", "six", "seven", "eight", "nine", "ten"]

/-- `word_to_number`. -/
def wordToNumber : List (String × ℕ) :=
  [("one", 1), ("two", 2), ("three", 3), ("four", 4), ("five", 5),
   ("six", 6), ("seven", 7), ("eight", 8), ("nine", 9), ("ten", 10)]

/-- Full month names of `parse_month_year_expression`. -/
def fullMonthNames : List String :=
  ["january", "february", "march", "april", "may", "june",
   "july", "august", "september", "october", "november", "december"]

/-- Month-name abbreviations of the extraction pattern. -/
def abbrMonthNames : List String :=
  ["jan", "feb", "mar", "apr", "jun", "jul", "aug", "sep", "oct", "nov", "dec"]

/-- The month map of `parse_month_year_expression`. -/
def monthNameMap : List (String × ℕ) :=
  [("january", 1), ("february", 2), ("march", 3), ("april", 4), ("may", 5), ("june", 6),
   ("july", 7), ("august", 8), ("september", 9), ("october", 10), ("november", 11), ("december", 12),
   ("jan", 1), ("feb", 2), ("mar", 3), ("apr", 4), ("jun", 6), ("jul", 7), ("aug", 8),
   ("sep", 9), ("oct", 10), ("nov", 11), ("dec", 12)]

/-- The ten extraction patterns of `extract_time_expression`, in source
order. -/
def extractPatterns : List (List Tok) :=
  [[Tok.lit "last", Tok.ws, Tok.many1 isDigitChar, Tok.ws, Tok.alts timeUnits, Tok.opt "s"],
   [Tok.lit "last", Tok.ws, Tok.alts writtenNumbers, Tok.ws, Tok.alts timeUnits, Tok.opt "s"],
   [Tok.lit "last", Tok.ws, Tok.alts timeUnits],
   [Tok.lit "yesterday"],
   [Tok.lit "today"],
   [Tok.lit "this", Tok.ws, Tok.alts ["week", "month", "year"]],
   [Tok.lit "in", Tok.ws, Tok.alts fullMonthNames, Tok.ws, Tok.exactly4 isDigitChar],
   [Tok.lit "in", Tok.ws, Tok.alts abbrMonthNames, Tok.ws, Tok.exactly4 isDigitChar],
   [Tok.upTo2 isDigitChar, Tok.lit "/", Tok.upTo2 isDigitChar, Tok.lit "/", Tok.exactly4 isDigitChar],
   [Tok.exactly4 isDigitChar, Tok.lit "-", Tok.upTo2 isDigitChar, Tok.lit "-", Tok.upTo2 isDigitChar]]

/-- `extract_time_expression`: the matched text (group 0) of the first
pattern that matches anywhere. -/
def extractTimeExpression (q : String) : Option String :=
  extractPatterns.findSome? (fun toks => (searchToks toks q.toList).map (fun l => String.mk l))

/-- `last\s+(\d+)\s+(day|week|month|year)s?` with its two captures. -/
def matchLastNumAt (s : List Char) : Option (ℕ × String) := do
  let r1 ← litChomp "last".toList s
  let r2 ← chompWs1 r1
  let (n, r3) ← takeDigits1 r2
  let r4 ← chompWs1 r3
  let (u, _) ← takeAltLit timeUnits r4
  pure (n, u)

/-- `last\s+(one|…|ten)\s+(day|week|month|year)s?` with its captures
(the written number is looked up with default `1`). -/
def matchLastWordAt (s : List Char) : Option (ℕ × String) := do
  let r1 ← litChomp "last".toList s
  let r2 ← chompWs1 r1
  let (w, r3) ← takeAltLit writtenNumbers r2
  let r4 ← chompWs1 r3
  let (u, _) ← takeAltLit timeUnits r4
  pure (((wordToNumber.find? (fun kv => kv.1 = w)).map (fun kv => kv.2)).getD 1, u)

/-- `last\s+(day|week|month|year)s?` with its capture. -/
def matchLastUnitAt (s : List Char) : Option String := do
  let r1 ← litChomp "last".toList s
  let r2 ← chompWs1 r1
  let (u, _) ← takeAltLit timeUnits r2
  pure u

/-- `parse_last_expression`. -/
def parseLastExpression (timeExpr : String) (now : ℤ) : ℤ × ℤ :=
  let s := timeExpr.toList
  let numUnit : Option (ℕ × String) :=
    match searchCapture matchLastNumAt s with
    | some nu => some nu
    | none =>
        match searchCapture matchLastWordAt s with
        | some nu => some nu
        | none => (searchCapture matchLastUnitAt s).map (fun u => (1, u))
  match numUnit with
  | none => getDefaultTimeWindow now
  | some (n, u) =>
      if u = "day" then (now - (n : ℤ) * 86400, now)
      else if u = "week" then (now - (n : ℤ) * 604800, now)
      else if u = "month" then (now - (n : ℤ) * 30 * 86400, now)
      else if u = "year" then (now - (n : ℤ) * 365 * 86400, now)
      else getDefaultTimeWindow now

/-- `parse_this_expression`. -/
def parseThisExpression (timeExpr : String) (now : ℤ) : ℤ × ℤ :=
  if strContains timeExpr "week" then
    (startOfDay (now - 86400 * weekdayOf now), now)
  else if strContains timeExpr "month" then
    match civilOfEpoch now with
    | (y, m, _) => (86400 * daysFromCivil y m 1, now)
  else if strContains timeExpr "year" then
    match civilOfEpoch now with
    | (y, _, _) => (86400 * daysFromCivil y 1 1, now)
  else getDefaultTimeWindow now

/-- `in\s+(\w+)\s+(\d{4})` with its captures. -/
def matchInMonthYearAt (s : List Char) : Option (String × ℕ) := do
  let r1 ← litChomp "in".toList s
  let r2 ← chompWs1 r1
  let (w, r3) ← takeChars1 isWordChar r2
  let r4 ← chompWs1 r3
  let (y, _) ← takeDigits4 r4
  pure (String.mk w, y)

/-- `parse_month_year_expression`. -/
def parseMonthYearExpression (timeExpr : String) (now : ℤ) : ℤ × ℤ :=
  match searchCapture matchInMonthYearAt timeExpr.toList with
  | none => getDefaultTimeWindow now
  | some (w, y) =>
      match monthNameMap.find? (fun kv => kv.1 = w) with
      | none => getDefaultTimeWindow now
      | some kv =>
          let m := kv.2
          (86400 * daysFromCivil (y : ℤ) m 1,
           86400 * daysFromCivil (y : ℤ) m (daysInMonth (y : ℤ) m) + 86399)

/-- `(\d{1,2})/(\d{1,2})/(\d{4})` with its captures. -/
def matchSlashDateAt (s : List Char) : Option (ℕ × ℕ × ℕ) := do
  let (m, r1) ← takeDigitsUpTo2 s
  let r2 ← litChomp "/".toList r1
  let (d, r3) ← takeDigitsUpTo2 r2
  let r4 ← litChomp "/".toList r3
  let (y, _) ← takeDigits4 r4
  pure (m, d, y)

/-- `(\d{4})-(\d{1,2})-(\d{1,2})` with its captures. -/
def matchDashDateAt (s : List Char) : Option (ℕ × ℕ × ℕ) := do
  let (y, r1) ← takeDigits4 s
  let r2 ← litChomp "-".toList r1
  let (m, r3) ← takeDigitsUpTo2 r2
  let r4 ← litChomp "-".toList r3
  let (d, _) ← takeDigitsUpTo2 r4
  pure (y, m, d)

/-- `parse_date_expression`. -/
def parseDateExpression (dateExpr : String) (now : ℤ) : ℤ × ℤ :=
  match searchCapture matchSlashDateAt dateExpr.toList with
  | some (m, d, y) =>
      (86400 * daysFromCivil (y : ℤ) m d, 86400 * daysFromCivil (y : ℤ) m d + 86399)
  | none =>
      match searchCapture matchDashDateAt dateExpr.toList with
      | some (y, m, d) =>
          (86400 * daysFromCivil (y : ℤ) m d, 86400 * daysFromCivil (y : ℤ) m d + 86399)
      | none => getDefaultTimeWindow now

/-- `parse_time_expression`: dispatch on the shape of the extracted
expression. -/
def parseTimeExpression (timeExpr : String) (now : ℤ) : ℤ × ℤ :=
  let el := toLowerStr timeExpr
  if strStartsWith el "last" then parseLastExpression el now
  else if el = "yesterday" then
    (startOfDay (now - 86400), startOfDay (now - 86400) + 86399)
  else if el = "today" then
    (startOfDay now, startOfDay now + 86399)
  else if strStartsWith el "this" then parseThisExpression el now
  else if strStartsWith el "in" then parseMonthYearExpression el now
  else if strContains timeExpr "/" || strContains timeExpr "-" then
    parseDateExpression timeExpr now
  else getDefaultTimeWindow now

/-- `parse_time`: lower the query; when a time expression is both
detected and extracted, parse it; otherwise fall back to the all-time
(5-year) window. -/
def parseTime (q : String) (now : ℤ) : ℤ × ℤ :=
  let ql := toLowerStr q
  if hasTimeExpression ql then
    match extractTimeExpression ql with
    | some e => parseTimeExpression e now
    | none => getAllTimeWindow now
  else getAllTimeWindow now

/-- The four patterns of `is_author_specific_query` (searched on the
raw query), with `(prs?|changes?|commits?)` expanded into its
alternatives (at most one can match at a given position). -/
def authorPatterns : List (List Tok) :=
  [[Tok.lit "change", Tok.opt "s", Tok.ws, Tok.alts ["made", "done"], Tok.ws,
    Tok.lit "by", Tok.ws, Tok.many1 isAuthorChar],
   [Tok.lit "pr", Tok.opt "s", Tok.ws, Tok.alts ["by", "from"], Tok.ws,
    Tok.many1 isAuthorChar],
   [Tok.many1 isAuthorChar, Tok.ws, Tok.lit "pr", Tok.opt "s"],
   [Tok.many1 isAuthorChar, Tok.ws, Tok.lit "change", Tok.opt "s"],
   [Tok.many1 isAuthorChar, Tok.ws, Tok.lit "commit", Tok.opt "s"],
   [Tok.lit "what", Tok.ws, Tok.lit "did", Tok.ws, Tok.many1 isAuthorChar, Tok.ws,
    Tok.lit "do"]]

/-- `is_author_specific_query`. -/
def isAuthorSpecificQuery (q : String) : Bool :=
  authorPatterns.any (fun toks => searchToksB toks q)

/-- The three bounded alternation groups of `is_risk_related_query`
(searched on the lowered query). -/
def riskPatterns : List (List (List Tok)) :=
  [[[Tok.lit "riskiest"], [Tok.lit "most", Tok.ws, Tok.lit "risky"],
    [Tok.lit "high", Tok.ws, Tok.lit "risk"]],
   [[Tok.lit "risk"], [Tok.lit "vulnerability"], [Tok.lit "security"]],
   [[Tok.lit "dangerous"], [Tok.lit "critical"], [Tok.lit "sensitive"]]]

/-- `is_risk_related_query`. -/
def isRiskRelatedQuery (q : String) : Bool :=
  riskPatterns.any (fun alts => searchBoundedAlt alts (toLowerStr q))

/-! ## Query router (`router.py`) -/

/-- The routing record returned by `route_query` (optional keys of the
Python dict become `Option` fields). -/
structure RoutePlan where
  route : String
  object : String
  metric : String
  semanticTerms : List String
  limit : Option ℕ
  prNumber : Option ℕ
  author : Option String
  specificFile : Option String
deriving Repr, DecidableEq

/-- A plan with only the four mandatory keys. -/
def mkPlan (r o m : String) (ts : List String) : RoutePlan :=
  { route := r, object := o, metric := m, semanticTerms := ts,
    limit := none, prNumber := none, author := none, specificFile := none }

/-- `features?\s+shipped` or `shipped\s+features?`. -/
def featuresShippedCue (ql : String) : Bool :=
  searchToksB [Tok.lit "feature", Tok.opt "s", Tok.ws, Tok.lit "shipped"] ql
    || searchToksB [Tok.lit "shipped", Tok.ws, Tok.lit "feature", Tok.opt "s"] ql

/-- `what\s+was\s+shipped` or `what\s+shipped`. -/
def whatShippedCue (ql : String) : Bool :=
  searchToksB [Tok.lit "what", Tok.ws, Tok.lit "was", Tok.ws, Tok.lit "shipped"] ql
    || searchToksB [Tok.lit "what", Tok.ws, Tok.lit "shipped"] ql

/-- `file\s+that\s+changed\s+most`. -/
def fileChangedMostCue (ql : String) : Bool :=
  searchToksB [Tok.lit "file", Tok.ws, Tok.lit "that", Tok.ws, Tok.lit "changed",
    Tok.ws, Tok.lit "most"] ql

/-- `\b(count|how\s+many|number\s+of|total)\b`. -/
def countCue (ql : String) : Bool :=
  searchBoundedAlt [[Tok.lit "count"], [Tok.lit "how", Tok.ws, Tok.lit "many"],
    [Tok.lit "number", Tok.ws, Tok.lit "of"], [Tok.lit "total"]] ql

/-- `\b(riskiest|high\s+risk|most\s+risky)\b`. -/
def riskiestCue (ql : String) : Bool :=
  searchBoundedAlt [[Tok.lit "riskiest"], [Tok.lit "high", Tok.ws, Tok.lit "risk"],
    [Tok.lit "most", Tok.ws, Tok.lit "risky"]] ql

/-- `\b(largest|biggest|most\s+changes)\b`. -/
def largestCue (ql : String) : Bool :=
  searchBoundedAlt [[Tok.lit "largest"], [Tok.lit "biggest"],
    [Tok.lit "most", Tok.ws, Tok.lit "changes"]] ql

/-- `\b(top|most)\b`. -/
def topMostCue (ql : String) : Bool :=
  searchBoundedAlt [[Tok.lit "top"], [Tok.lit "most"]] ql

/-- `top\s+(\d+)` and its capture. -/
def matchTopNAt (s : List Char) : Option ℕ := do
  let r1 ← litChomp "top".toList s
  let r2 ← chompWs1 r1
  let (n, _) ← takeDigits1 r2
  pure n

/-- The `top N` limit of a query. -/
def searchTopN (ql : String) : Option ℕ :=
  searchCapture matchTopNAt ql.toList

/-- `pr\s+(?:#\s*)?(\d+)` and its capture. -/
def matchPrNumberAt (s : List Char) : Option ℕ := do
  let r1 ← litChomp "pr".toList s
  let r2 ← chompWs1 r1
  let r3 :=
    match litChomp "#".toList r2 with
    | some rr => rr.dropWhile isSpaceChar
    | none => r2
  let (n, _) ← takeDigits1 r3
  pure n

/-- The explicit PR number of a query. -/
def searchPrNumber (ql : String) : Option ℕ :=
  searchCapture matchPrNumberAt ql.toList

/-- `changes?\s+(made|done)\s+by\s+([a-zA-Z0-9_-]+)` and its second
capture. -/
def matchAuthorAt (s : List Char) : Option String := do
  let r1 ← litChomp "change".toList s
  let r2 ← matchTokRem (Tok.opt "s") r1
  let r3 ← chompWs1 r2
  let (_, r4) ← takeAltLit ["made", "done"] r3
  let r5 ← chompWs1 r4
  let r6 ← litChomp "by".toList r5
  let r7 ← chompWs1 r6
  let (a, _) ← takeChars1 isAuthorChar r7
  pure (String.mk a)

/-- The author captured from a `changes made/done by X` query. -/
def searchAuthor (ql : String) : Option String :=
  searchCapture matchAuthorAt ql.toList

/-- `determine_direct_route`: the sub-classification chain, in source
order. -/
def determineDirectRoute (ql : String) : RoutePlan :=
  if featuresShippedCue ql then mkPlan "direct" "features" "list" []
  else if whatShippedCue ql then mkPlan "direct" "prs" "list" []
  else if fileChangedMostCue ql then mkPlan "direct" "files" "top" []
  else if countCue ql then mkPlan "direct" "prs" "count" []
  else if riskiestCue ql then
    { mkPlan "direct" "prs" "riskiest" [] with limit := some ((searchTopN ql).getD 20) }
  else if largestCue ql then
    { mkPlan "direct" "prs" "largest" [] with limit := some ((searchTopN ql).getD 20) }
  else if topMostCue ql then
    { mkPlan "direct" "prs" "top" [] with limit := some ((searchTopN ql).getD 20) }
  else
    match searchPrNumber ql with
    | some n => { mkPlan "direct" "prs" "list" [] with prNumber := some n }
    | none =>
        match searchAuthor ql with
        | some a => { mkPlan "direct" "prs" "list" [] with author := some a }
        | none => mkPlan "direct" "prs" "list" []

/-- The direct-route trigger patterns of `route_query`, in source order
(multi-alternative regexes expanded where at most one alternative can
match at a position). -/
def directTriggers (ql : String) : Bool :=
  searchBoundedAlt [[Tok.lit "count"], [Tok.lit "top"], [Tok.lit "most"],
    [Tok.lit "list"], [Tok.lit "merged"]] ql
  || featuresShippedCue ql
  || whatShippedCue ql
  || searchToksB [Tok.lit "change", Tok.opt "s", Tok.ws, Tok.lit "last"] ql
  || searchToksB [Tok.lit "change", Tok.opt "s", Tok.ws, Tok.alts ["made", "done"],
       Tok.ws, Tok.lit "by"] ql
  || searchToksB [Tok.lit "file", Tok.ws, Tok.lit "that", Tok.ws, Tok.lit "changed"] ql
  || searchToksB [Tok.lit "how", Tok.ws, Tok.lit "many"] ql
  || searchToksB [Tok.lit "number", Tok.ws, Tok.lit "of"] ql
  || searchToksB [Tok.lit "total", Tok.ws, Tok.alts ["prs", "pr", "changes", "change",
       "features", "feature"]] ql
  || searchToksB [Tok.lit "pr", Tok.opt "s", Tok.ws, Tok.lit "merged"] ql
  || searchToksB [Tok.lit "file", Tok.opt "s", Tok.ws, Tok.lit "modified"] ql
  || searchToksB [Tok.lit "pr", Tok.ws, Tok.many1 isDigitChar] ql
  || searchToksB [Tok.lit "summarize", Tok.ws, Tok.lit "pr", Tok.ws,
       Tok.many1 isDigitChar] ql
  || searchToksB [Tok.lit "pr", Tok.ws, Tok.lit "#", Tok.wsOpt, Tok.many1 isDigitChar] ql
  || searchToksB [Tok.lit "summarize", Tok.ws, Tok.lit "pr", Tok.ws, Tok.lit "#",
       Tok.wsOpt, Tok.many1 isDigitChar] ql
  || largestCue ql
  || riskiestCue ql

/-- The topic alternation groups of the hybrid route, in source order. -/
def hybridAlts : List (List String) :=
  [["auth", "authentication", "authorization"],
   ["payment", "billing", "invoice"],
   ["pipeline", "ci", "cd", "deploy"],
   ["security", "vulnerability", "risk"],
   ["database", "sql", "query"],
   ["api", "endpoint", "route"],
   ["ui", "ux", "frontend", "backend"],
   ["test", "testing", "tested"],
   ["performance", "optimization", "speed"],
   ["error", "bug", "fix", "issue"]]

/-- `\b(alt₁|alt₂|…)\b` at one position, returning the first
alternative (in pattern order) that matches there — the regex's
group 1. -/
def wordAltCaptureAt (alts : List String) (prevW : Bool) (s : List Char) : Option String :=
  if prevW then none
  else
    alts.findSome? (fun w =>
      match litChomp w.toList s with
      | some r =>
          (match r with
           | [] => some w
           | c :: _ => if isWordChar c then none else some w)
      | none => none)

/-- Leftmost search of a word-bounded literal alternation, returning
group 1. -/
def searchWordAltFrom (alts : List String) : Bool → List Char → Option String
  | prevW, [] => wordAltCaptureAt alts prevW []
  | prevW, c :: t =>
      match wordAltCaptureAt alts prevW (c :: t) with
      | some w => some w
      | none => searchWordAltFrom alts (isWordChar c) t

/-- The semantic terms collected by `route_query`'s hybrid loop: one
captured alternative per topic group that matches. -/
def routeHybridTerms (ql : String) : List String :=
  hybridAlts.filterMap (fun alts => searchWordAltFrom alts false ql.toList)

/-- The extension alternatives of the last specific-file pattern, in
source order. -/
def fileExtAlternatives : List String :=
  ["py", "js", "java", "cpp", "c", "h", "ts", "jsx", "tsx", "html", "css",
   "sql", "json", "yaml", "yml", "md", "txt"]

/-- For a maximal `[a-zA-Z0-9_.-]+` run, the greedy split of
`([a-zA-Z0-9_.-]+\.(ext|…))`: the largest dot position (the regex
backtracks from the longest class run) followed by the first extension
alternative that matches there. -/
def findDotExt (run : List Char) : Option (ℕ × String) :=
  ((List.range run.length).filterMap (fun j =>
    if 1 ≤ j ∧ run.getD j ' ' = '.' then
      (fileExtAlternatives.findSome? (fun e =>
        if listStartsWith e.toList (run.drop (j + 1)) then some e else none)).map
        (fun e => (j, e))
    else none)).getLast?

/-- `([a-zA-Z0-9_.-]+\.(py|js|…))` at one position, returning
group 1. -/
def fileExtCaptureAt (s : List Char) : Option String :=
  match s with
  | [] => none
  | c :: _ =>
      if isFileChar c then
        (findDotExt (s.takeWhile isFileChar)).map
          (fun je => String.mk ((s.takeWhile isFileChar).take je.1) ++ "." ++ je.2)
      else none

/-- A capture pattern: fixed tokens followed by a captured
`[a-zA-Z0-9_.-]+` run. -/
def matchToksThenFileName (toks : List Tok) (s : List Char) : Option String := do
  let r ← matchToksRem toks s
  let (tk, _) ← takeChars1 isFileChar r
  pure (String.mk tk)

/-- The five specific-file patterns of `route_query`, in source order,
each with its filename capture. -/
def searchSpecificFile (ql : String) : Option String :=
  match searchCapture (matchToksThenFileName
      [Tok.lit "show", Tok.ws, Tok.lit "change", Tok.opt "s", Tok.ws, Tok.lit "in", Tok.ws]) ql.toList with
  | some fn => some fn
  | none =>
  match searchCapture (matchToksThenFileName
      [Tok.lit "change", Tok.opt "s", Tok.ws, Tok.lit "to", Tok.ws]) ql.toList with
  | some fn => some fn
  | none =>
  match searchCapture (matchToksThenFileName
      [Tok.lit "change", Tok.opt "s", Tok.ws, Tok.lit "in", Tok.ws]) ql.toList with
  | some fn => some fn
  | none =>
  match searchCapture (matchToksThenFileName [Tok.lit "file", Tok.ws]) ql.toList with
  | some fn => some fn
  | none => searchCapture fileExtCaptureAt ql.toList

/-- The general file keywords checked by `route_query` before the
vector route. -/
def routeFileKeywords : List String :=
  ["file", "files", ".py", ".js", ".java", ".cpp", ".c", ".h", ".ts", ".jsx",
   ".tsx", ".html", ".css", ".sql", ".json", ".yaml", ".yml", ".md", ".txt"]

/-- The file keywords of `determine_hybrid_route`. -/
def hybridFileKeywords : List String :=
  ["file", "files", "sql", "database", "schema", "migration", ".py", ".js",
   ".java", ".cpp", ".c", ".h", ".ts", ".jsx", ".tsx", ".html", ".css",
   ".json", ".yaml", ".yml", ".md", ".txt"]

/-- The feature keywords of `determine_hybrid_route`. -/
def hybridFeatureKeywords : List String :=
  ["feature", "features", "auth", "payment", "api", "endpoint"]

/-- `determine_hybrid_route`. -/
def determineHybridRoute (ql : String) (terms : List String) : RoutePlan :=
  if hybridFileKeywords.any (fun k => strContains ql k) then
    mkPlan "hybrid" "files" "list" terms
  else if hybridFeatureKeywords.any (fun k => strContains ql k) then
    mkPlan "hybrid" "features" "list" terms
  else mkPlan "hybrid" "prs" "list" terms

/-- The vector-route trigger patterns, in source order. -/
def vectorTriggers (ql : String) : Bool :=
  searchBounded [Tok.lit "why"] ql
  || searchBounded [Tok.lit "explain"] ql
  || searchBounded [Tok.lit "how", Tok.ws, Tok.lit "does"] ql
  || searchBounded [Tok.lit "what", Tok.ws, Tok.lit "is"] ql
  || searchBounded [Tok.lit "risky", Tok.ws, Tok.lit "because"] ql
  || searchBounded [Tok.lit "show", Tok.ws, Tok.lit "me"] ql
  || searchBounded [Tok.lit "tell", Tok.ws, Tok.lit "me"] ql
  || searchBounded [Tok.lit "describe"] ql
  || searchBounded [Tok.lit "understand"] ql
  || searchBounded [Tok.lit "streaming", Tok.ws, Tok.lit "feature", Tok.opt "s"] ql
  || searchBounded [Tok.lit "complex", Tok.ws, Tok.lit "change", Tok.opt "s"] ql
  || searchBounded [Tok.lit "impact", Tok.ws, Tok.lit "of"] ql

/-- `determine_vector_route`. -/
def determineVectorRoute (ql : String) : RoutePlan :=
  if searchBoundedAlt [[Tok.lit "why"], [Tok.lit "explain"],
      [Tok.lit "how", Tok.ws, Tok.lit "does"], [Tok.lit "what", Tok.ws, Tok.lit "is"]] ql then
    mkPlan "vector" "prs" "explain" [ql]
  else if searchBoundedAlt [[Tok.lit "risky"], [Tok.lit "risk"],
      [Tok.lit "vulnerability"], [Tok.lit "security"]] ql then
    mkPlan "vector" "files" "explain" [ql]
  else mkPlan "vector" "prs" "explain" [ql]

/-- `route_query`: the first-match-wins classification chain. -/
def routeQuery (q : String) : RoutePlan :=
  let ql := toLowerStr q
  if directTriggers ql then determineDirectRoute ql
  else
    let terms := routeHybridTerms ql
    if !terms.isEmpty then determineHybridRoute ql terms
    else
      match searchSpecificFile ql with
      | some fn =>
          { route := "hybrid", object := "files", metric := "list",
            semanticTerms := [fn], limit := none, prNumber := none,
            author := none, specificFile := some fn }
      | none =>
          if routeFileKeywords.any (fun k => strContains ql k) then
            determineHybridRoute ql [q]
          else if vectorTriggers ql then determineVectorRoute ql
          else determineHybridRoute ql [q]

/-! ## Concrete example inputs -/

/-- File A of the spec's aggregation scenario: score 9, 100 lines. -/
def exampleFileA : RiskFile := ⟨some ⟨9⟩, 100, 0, 0, false⟩

/-- File B of the spec's aggregation scenario: score 3, 300 lines. -/
def exampleFileB : RiskFile := ⟨some ⟨3⟩, 300, 0, 0, false⟩

/-- A file with score 7 over 901 lines (banding counterexample). -/
def boundaryFileA : RiskFile := ⟨some ⟨7⟩, 901, 0, 0, false⟩

/-- A file with score 6 over 99 lines (banding counterexample). -/
def boundaryFileB : RiskFile := ⟨some ⟨6⟩, 99, 0, 0, false⟩

/-- An enriched PR JSON record whose aggregated risk lands on the
banding boundary. -/
def boundaryPrJson : PrJson :=
  { repoName := "acme/app", prId := 101, prNumber := 7, title := "tune cache",
    authorName := "alice", createdAt := 100, mergedAt := 200, isMerged := true,
    isClosed := true, additions := 900, deletions := 100, changedFiles := 2,
    feature := none,
    prRiskAssessment := some (calculatePrRiskAssessment [boundaryFileA, boundaryFileB]) }

/-- A minimal enriched PR JSON record for the loader. -/
def loaderPrJson : PrJson :=
  { repoName := "acme/app", prId := 555, prNumber := 9, title := "add widget",
    authorName := "bob", createdAt := 100, mergedAt := 300, isMerged := true,
    isClosed := true, additions := 10, deletions := 2, changedFiles := 1,
    feature := some "add widget", prRiskAssessment := none }

/-- A PR row with `pr_id = 42`, duplicated in the deduplication
counterexample. -/
def duplicatedPrRow : PrRecord :=
  { repoName := "acme/app", prId := 42, prNumber := 4, title := "t",
    authorName := "carol", createdAt := 1, mergedAt := 2, isMerged := true,
    isClosed := true, additions := 3, deletions := 4, changedFiles := 1,
    feature := "", riskScore := 5, riskBand := "medium", highRisk := false }

/-- A raw forge file entry (file-cap counterexample). -/
def exampleFileData : FileData :=
  ⟨"module_a.py", "modified", 10, 5, 15, ""⟩

/-- A stored file row (query-limit witness). -/
def exampleFileRecord : FileRecord :=
  { repoName := "acme/app", prNumber := 4, prId := 42, fileId := "module_a.py",
    language := "Python", linesChanged := 3, isBinary := false, mergedAt := 2,
    riskScoreFile := 1 }

/-- The `repo_name` key text preceding the quoted literal. -/
def repoNameKey : List Char := "repo_name == \"".data

/-- The concrete expression text preceding the `repo_name` clause when
`start = 0`, `end = 253402300799` and no author/PR-number filter is
given. -/
def exprHead : List Char :=
  "merged_at >= 0 and merged_at <= 253402300799 and is_merged == true and ".data

/-! # Theorems -/

/-! ### Helper lemmas -/

/-- Bounding a `max`-fold from below: the bound is met iff the seed or
some element meets it. -/
theorem le_foldl_max_iff (b : ℚ) (l : List RiskFile) :
    ∀ a : ℚ, b ≤ l.foldl (fun m f => max m (fileScore f)) a ↔
      b ≤ a ∨ ∃ f ∈ l, b ≤ fileScore f := by
  induction l with
  | nil => intro a; simp
  | cons x xs ih =>
      intro a
      rw [List.foldl_cons, ih (max a (fileScore x))]
      simp [le_max_iff, or_assoc]

/-- `has_hard_condition` decides the existence of a file scoring ≥ 8. -/
theorem hasHardCondition_iff (fs : List RiskFile) :
    hasHardCondition fs = true ↔ ∃ f ∈ fs, 8 ≤ fileScore f := by
  simp [hasHardCondition]

/-- `max_file_score` reaches 8 exactly when some file scores ≥ 8. -/
theorem maxFileScore_ge_iff (fs : List RiskFile) :
    8 ≤ maxFileScore fs ↔ ∃ f ∈ fs, 8 ≤ fileScore f := by
  rw [maxFileScore, le_foldl_max_iff]
  constructor
  · rintro (h | h)
    · norm_num at h
    · exact h
  · exact Or.inr

/-- The code's base score coincides with the spec's base formula. -/
theorem prBaseScore_eq_spec (fs : List RiskFile) :
    prBaseScore fs = specBaseScore fs := by
  unfold prBaseScore specBaseScore weightedSum totalWeight
  split_ifs with h1 h2
  · rfl
  · rfl
  · have hnil : fs = [] := List.length_eq_zero.mp (by omega)
    subst hnil
    simp

/-! ### C1 — PR risk aggregation follows the spec rubric -/

/-- C1.  PR-level risk aggregation is the deterministic rubric of the
spec: the raw aggregated score of `_calculate_pr_risk_assessment`
equals, for every file list, the spec-side rubric (weight-averaged
base — plain mean on zero total weight — raised to `max(base, 8.0)` and
bumped by `0.5` capped at `10.0` when some file scores ≥ 8; lowered by
`0.5` floored at `0.0` when net test lines added is positive and every
file scores < 8; else the base); and on the spec's example
(A: score 9 / 100 lines, B: score 3 / 300 lines) the assessment is
risk_score 8.5, risk_band high, high_risk true. -/
theorem pr_risk_aggregation_matches_rubric :
    (∀ files : List RiskFile, prRawScore files = specPrRiskScore files)
    ∧ calculatePrRiskAssessment [exampleFileA, exampleFileB] =
        { riskScore := 17/2, riskBand := "high", highRisk := true } := by
  constructor
  · intro files
    unfold prRawScore specPrRiskScore
    by_cases hx : ∃ f ∈ filesWithRisk files, 8 ≤ fileScore f
    · have hard : hasHardCondition (filesWithRisk files) = true :=
        (hasHardCondition_iff _).mpr hx
      have hmax : 8 ≤ maxFileScore (filesWithRisk files) :=
        (maxFileScore_ge_iff _).mpr hx
      have hany : (filesWithRisk files).any (fun f => decide (8 ≤ fileScore f)) = true := hard
      simp [hard, hmax, hany, not_lt.2 hmax, prBaseScore_eq_spec]
    · have hard : hasHardCondition (filesWithRisk files) = false := by
        rw [Bool.eq_false_iff]
        intro hc
        exact hx ((hasHardCondition_iff _).mp hc)
      have hmax : maxFileScore (filesWithRisk files) < 8 :=
        lt_of_not_le (fun hc => hx ((maxFileScore_ge_iff _).mp hc))
      have hany : (filesWithRisk files).any (fun f => decide (8 ≤ fileScore f)) = false := hard
      have hall : ((filesWithRisk files).all fun f => decide (fileScore f < 8)) = true := by
        simp only [List.all_eq_true, decide_eq_true_eq]
        intro f hf
        exact lt_of_not_le (fun hle => hx ⟨f, hf, hle⟩)
      simp [hard, hany, hall, not_le.2 hmax, hmax, prBaseScore_eq_spec]
  · norm_num [calculatePrRiskAssessment, prRawScore, filesWithRisk, prBaseScore,
      weightedSum, totalWeight, fileScore, hasHardCondition, maxFileScore,
      netTestsAdded, round2, roundHalfEven, riskBandOf, exampleFileA, exampleFileB,
      List.filter, List.foldl]

/-! ### C2 — risk band and flag come from the unrounded score -/

/-- C2 counterexample.  A PR record written to the PR index can carry a
stored (rounded) `risk_score` of exactly 6.9 together with
`risk_band = "high"`: with file scores 7 (901 lines) and 6 (99 lines)
the unrounded aggregate is 6.901, which bands high, while the stored
score rounds to 6.9 — so "medium iff 3.0 < risk_score ≤ 6.9" fails on
the stored value. -/
theorem risk_band_rounding_counterexample :
    (3 < (preparePrData boundaryPrJson).riskScore
      ∧ (preparePrData boundaryPrJson).riskScore ≤ 69/10)
    ∧ (preparePrData boundaryPrJson).riskBand ≠ "medium"
    ∧ (preparePrData boundaryPrJson).riskBand = "high" := by
  have h : calculatePrRiskAssessment [boundaryFileA, boundaryFileB] =
      { riskScore := 69/10, riskBand := "high", highRisk := false } := by
    norm_num [calculatePrRiskAssessment, prRawScore, filesWithRisk, prBaseScore,
      weightedSum, totalWeight, fileScore, hasHardCondition, maxFileScore,
      netTestsAdded, round2, roundHalfEven, riskBandOf, boundaryFileA, boundaryFileB,
      List.filter, List.foldl]
  refine ⟨⟨by norm_num [preparePrData, boundaryPrJson, h],
    by norm_num [preparePrData, boundaryPrJson, h]⟩,
    by simp [preparePrData, boundaryPrJson, h],
    by simp [preparePrData, boundaryPrJson, h]⟩

/-- The band chain realizes "low iff `s ≤ 3`". -/
theorem riskBandOf_eq_low_iff (s : ℚ) : riskBandOf s = "low" ↔ s ≤ 3 := by
  unfold riskBandOf
  split_ifs with h1 h2
  · exact iff_of_true rfl h1
  · exact iff_of_false (by decide) h1
  · exact iff_of_false (by decide) h1

/-- The band chain realizes "medium iff `3 < s ≤ 6.9`". -/
theorem riskBandOf_eq_medium_iff (s : ℚ) :
    riskBandOf s = "medium" ↔ 3 < s ∧ s ≤ 69/10 := by
  unfold riskBandOf
  split_ifs with h1 h2
  · exact iff_of_false (by decide) (fun hc => not_lt.2 h1 hc.1)
  · exact iff_of_true rfl ⟨not_le.1 h1, h2⟩
  · exact iff_of_false (by decide) (fun hc => h2 hc.2)

/-- The band chain realizes "high iff `6.9 < s`". -/
theorem riskBandOf_eq_high_iff (s : ℚ) :
    riskBandOf s = "high" ↔ 69/10 < s := by
  unfold riskBandOf
  split_ifs with h1 h2
  · exact iff_of_false (by decide) (not_lt.2 (by linarith))
  · exact iff_of_false (by decide) (not_lt.2 h2)
  · exact iff_of_true rfl (not_le.1 h2)

/-- C2 amended.  For every PR whose file list carries at least one risk
assessment, the record's `risk_band` and `high_risk` are determined by
the *unrounded* aggregate score `s` (low iff `s ≤ 3`, medium iff
`3 < s ≤ 6.9`, high iff `6.9 < s`, and `high_risk` iff `s ≥ 7`), while
the stored `risk_score` is `s` rounded to two decimals — which can
disagree with the banding thresholds at rounding boundaries. -/
theorem risk_band_from_unrounded_score (files : List RiskFile)
    (h : (filesWithRisk files).isEmpty = false) :
    ((calculatePrRiskAssessment files).riskBand = "low" ↔ prRawScore files ≤ 3)
    ∧ ((calculatePrRiskAssessment files).riskBand = "medium" ↔
        3 < prRawScore files ∧ prRawScore files ≤ 69/10)
    ∧ ((calculatePrRiskAssessment files).riskBand = "high" ↔ 69/10 < prRawScore files)
    ∧ ((calculatePrRiskAssessment files).highRisk = true ↔ 7 ≤ prRawScore files)
    ∧ (calculatePrRiskAssessment files).riskScore = round2 (prRawScore files) := by
  have hcalc : calculatePrRiskAssessment files =
      { riskScore := round2 (prRawScore files)
        riskBand := riskBandOf (prRawScore files)
        highRisk := decide (7 ≤ prRawScore files) } := by
    rw [calculatePrRiskAssessment, if_neg (by simp [h])]
  rw [hcalc]
  exact ⟨riskBandOf_eq_low_iff _, riskBandOf_eq_medium_iff _,
    riskBandOf_eq_high_iff _, by simp, rfl⟩

/-- C2 witness: the amended characterization applied to the boundary
example. -/
theorem risk_band_from_unrounded_score_witness :
    (filesWithRisk [boundaryFileA, boundaryFileB]).isEmpty = false
    ∧ ((calculatePrRiskAssessment [boundaryFileA, boundaryFileB]).riskBand = "high" ↔
        69/10 < prRawScore [boundaryFileA, boundaryFileB]) := by
  refine ⟨by simp [filesWithRisk, boundaryFileA, boundaryFileB], ?_⟩
  exact (risk_band_from_unrounded_score [boundaryFileA, boundaryFileB]
    (by simp [filesWithRisk, boundaryFileA, boundaryFileB])).2.2.1

/-! ### C3 — feature classification -/

/-- C3 counterexample.  The claim counts an empty changed-file list as
documentation-only, which would make a merged unlabeled PR with no
files a non-feature with empty feature string — but
`_is_documentation_only_pr` returns `False` on an empty list, so such
a PR is classified as a feature and its feature string is the PR
title. -/
theorem feature_empty_files_counterexample :
    storedFeature [] (some "2024-05-01T00:00:00Z") "Add X" [] = "Add X"
    ∧ ("Add X" : String) ≠ ""
    ∧ isDocumentationOnlyPr [] = false := by
  refine ⟨?_, by decide, by decide⟩
  decide

/-- Membership in the allow bucket, as a proposition. -/
theorem hasAllowLabel_iff (labelNames : List String) :
    hasAllowLabel labelNames = true ↔ ∃ l ∈ labelNames, toLowerStr l ∈ allowLabels := by
  simp [hasAllowLabel, List.elem_iff]

/-- Membership in the exclude bucket, as a proposition. -/
theorem hasExcludeLabel_iff (labelNames : List String) :
    hasExcludeLabel labelNames = true ↔ ∃ l ∈ labelNames, toLowerStr l ∈ excludeLabels := by
  simp [hasExcludeLabel, List.elem_iff]

/-- Documentation-only, as a proposition: a *non-empty* list all of
whose files classify as documentation. -/
theorem isDocumentationOnlyPr_iff (filenames : List String) :
    isDocumentationOnlyPr filenames = true ↔
      filenames ≠ [] ∧ ∀ f ∈ filenames, isDocumentationFile f = true := by
  unfold isDocumentationOnlyPr
  cases filenames with
  | nil => simp
  | cons x xs => simp [List.all_eq_true]

/-- The classifier returns a value exactly when `is_feature` holds. -/
theorem classifyPrAsFeature_isSome (labelNames : List String)
    (mergedAt : Option String) (title : String) (filenames : List String) :
    (classifyPrAsFeature labelNames mergedAt title filenames).isSome =
      isFeaturePr labelNames mergedAt filenames := by
  unfold classifyPrAsFeature
  cases hb : isFeaturePr labelNames mergedAt filenames
  · simp [hb]
  · simp only [hb, Bool.not_true, Bool.false_eq_true, if_false]
    split <;> simp

/-- C3 amended.  A PR is classified as a feature iff it carries an
allow-label, or it is merged, carries no exclude-label and is not
documentation-only — where documentation-only means a *non-empty*
changed-file list all of whose files classify as documentation (an
empty file list is not documentation-only).  When it is a feature, the
feature string is the trimmed PR title when non-blank and the fixed
fallback `"Feature implementation"` otherwise; non-features store the
empty string.  The claim's three label examples hold. -/
theorem feature_classification_characterization :
    (∀ (labelNames : List String) (mergedAt : Option String) (title : String)
        (filenames : List String),
      (classifyPrAsFeature labelNames mergedAt title filenames).isSome = true ↔
        ((∃ l ∈ labelNames, toLowerStr l ∈ allowLabels) ∨
         (mergedAt.isSome = true ∧ (¬∃ l ∈ labelNames, toLowerStr l ∈ excludeLabels) ∧
          ¬(filenames ≠ [] ∧ ∀ f ∈ filenames, isDocumentationFile f = true))))
    ∧ (∀ labelNames mergedAt title filenames s,
        classifyPrAsFeature labelNames mergedAt title filenames = some s →
          s = if stripStr title ≠ "" then stripStr title else "Feature implementation")
    ∧ storedFeature ["bugfix"] (some "2024-05-01T00:00:00Z") "Fix crash" ["src/app.py"] = ""
    ∧ storedFeature ["feature"] (some "2024-05-01T00:00:00Z") "Add search" ["src/app.py"]
        = "Add search"
    ∧ storedFeature [] (some "2024-05-01T00:00:00Z") "Update docs"
        ["README.md", "docs/guide.md"] = "" := by
  refine ⟨?_, ?_, by decide, by decide, by decide⟩
  · intro labelNames mergedAt title filenames
    rw [classifyPrAsFeature_isSome, isFeaturePr]
    simp only [Bool.or_eq_true, Bool.and_eq_true, Bool.not_eq_true',
      Bool.eq_false_iff, hasAllowLabel_iff, hasExcludeLabel_iff]
    constructor
    · rintro (h | ⟨⟨hm, hex⟩, hdoc⟩)
      · exact Or.inl h
      · refine Or.inr ⟨hm, fun hc => hex ((hasExcludeLabel_iff _).mpr hc), ?_⟩
        intro hc
        exact hdoc ((isDocumentationOnlyPr_iff _).mpr hc)
    · rintro (h | ⟨hm, hex, hdoc⟩)
      · exact Or.inl h
      · refine Or.inr ⟨⟨hm, fun hc => hex ((hasExcludeLabel_iff _).mp hc)⟩, ?_⟩
        intro hc
        exact hdoc ((isDocumentationOnlyPr_iff _).mp hc)
  · intro labelNames mergedAt title filenames s hs
    cases hb : isFeaturePr labelNames mergedAt filenames with
    | false => rw [classifyPrAsFeature, hb] at hs; simp at hs
    | true =>
        have hs' : (if stripStr title ≠ "" then some (stripStr title)
            else some "Feature implementation") = some s := by
          simpa [classifyPrAsFeature, hb] using hs
        by_cases ht : stripStr title ≠ ""
        · rw [if_pos ht] at hs'
          rw [if_pos ht]
          exact (Option.some_injective _ hs').symm
        · rw [if_neg ht] at hs'
          rw [if_neg ht]
          exact (Option.some_injective _ hs').symm

/-- C3 witness: the feature-string rule applied to a labeled feature
PR. -/
theorem feature_classification_characterization_witness :
    classifyPrAsFeature ["feature"] none "Add search" [] = some "Add search"
    ∧ ("Add search" : String)
        = (if stripStr "Add search" ≠ "" then stripStr "Add search"
           else "Feature implementation") :=
  ⟨by decide,
   feature_classification_characterization.2.1 ["feature"] none "Add search" []
     "Add search" (by decide)⟩

/-! ### C4 — loader semantics -/

/-- One batch insert appends exactly the batch records, in order. -/
theorem insertPrBatch_rows (batch : List PrRecord) :
    ∀ c : PrCollection,
      (insertPrBatch c batch).rows.map Prod.snd = c.rows.map Prod.snd ++ batch := by
  induction batch with
  | nil => intro c; simp [insertPrBatch]
  | cons b bs ih =>
      intro c
      have : insertPrBatch c (b :: bs) = insertPrBatch (insertPr c b) bs := rfl
      rw [this, ih (insertPr c b)]
      simp [insertPr]

/-- The batching loop appends the prepared records of the pending batch
and of the remaining input, in order. -/
theorem loadDataGo_rows (bs : ℕ) (ps : List PrJson) :
    ∀ (c : PrCollection) (batch : List PrRecord),
      (loadDataGo bs c batch ps).rows.map Prod.snd =
        c.rows.map Prod.snd ++ batch ++ ps.map preparePrData := by
  induction ps with
  | nil =>
      intro c batch
      rw [loadDataGo]
      split
      · next hbatch =>
          rw [List.isEmpty_iff] at hbatch
          simp [hbatch]
      · simp [insertPrBatch_rows]
  | cons p ps ih =>
      intro c batch
      rw [loadDataGo]
      split
      · rw [ih]
        simp [insertPrBatch_rows]
      · rw [ih]
        simp

/-- C4 amended.  The loader's collections carry an auto-generated
`primary_key` (`auto_id=True`) and `_insert_pr_batch` performs plain
inserts: loading appends one new row per input record, never replacing
an existing row, so re-running the loader on the same file duplicates
every `(repo_name, pr_id)` key instead of upserting. -/
theorem loader_insert_appends :
    (∀ (c : PrCollection) (prs : List PrJson) (bs : ℕ),
      (loadData c prs bs).rows.map Prod.snd =
        c.rows.map Prod.snd ++ prs.map preparePrData)
    ∧ (∀ (c : PrCollection) (prs : List PrJson) (bs : ℕ),
      (loadData c prs bs).rows.length = c.rows.length + prs.length) := by
  have hmap : ∀ (c : PrCollection) (prs : List PrJson) (bs : ℕ),
      (loadData c prs bs).rows.map Prod.snd =
        c.rows.map Prod.snd ++ prs.map preparePrData := by
    intro c prs bs
    have := loadDataGo_rows bs prs c []
    simpa [loadData] using this
  refine ⟨hmap, fun c prs bs => ?_⟩
  have := congrArg List.length (hmap c prs bs)
  simpa using this

/-- C4 counterexample.  Loading the same single-PR input file twice
leaves two rows with the logical key `(repo_name, pr_id)` — the second
load adds a duplicate instead of replacing the existing row, so the
collection state differs from a single load. -/
theorem loader_rerun_duplicates_counterexample :
    rowsWithKey (loadData (loadData ⟨0, []⟩ [loaderPrJson] 50) [loaderPrJson] 50)
        "acme/app" 555 = 2
    ∧ rowsWithKey (loadData ⟨0, []⟩ [loaderPrJson] 50) "acme/app" 555 = 1
    ∧ (loadData (loadData ⟨0, []⟩ [loaderPrJson] 50) [loaderPrJson] 50).rows.length
        ≠ (loadData ⟨0, []⟩ [loaderPrJson] 50).rows.length := by
  refine ⟨by decide, by decide, by decide⟩

/-! ### C5 — deduplication across handlers -/

/-- The seen-set loop yields pairwise-distinct `pr_id`s, none of them
previously seen. -/
theorem dedupeByPrId_nodup_aux (rows : List PrRecord) :
    ∀ seen : List ℤ,
      ((dedupeByPrId seen rows).map (fun r => r.prId)).Nodup
      ∧ ∀ r ∈ dedupeByPrId seen rows, ¬ r.prId ∈ seen := by
  induction rows with
  | nil => intro seen; simp [dedupeByPrId]
  | cons x xs ih =>
      intro seen
      rw [dedupeByPrId]
      by_cases hc : x.prId ∈ seen
      · rw [if_pos (by simpa [List.elem_iff] using hc)]
        exact ih seen
      · rw [if_neg (by simpa [List.elem_iff] using hc)]
        obtain ⟨h1, h2⟩ := ih (x.prId :: seen)
        refine ⟨?_, ?_⟩
        · rw [List.map_cons, List.nodup_cons]
          refine ⟨?_, h1⟩
          intro hmem
          obtain ⟨r, hr, hid⟩ := List.mem_map.mp hmem
          exact h2 r hr (hid ▸ List.mem_cons_self _ _)
        · intro r hr
          rcases List.mem_cons.mp hr with rfl | hr'
          · exact hc
          · intro hs
            exact h2 r hr' (List.mem_cons_of_mem _ hs)

/-- Stable descending insertion permutes. -/
theorem insertDescBy_perm {α β : Type} [LinearOrder β] (key : α → β) (x : α)
    (l : List α) : (insertDescBy key x l).Perm (x :: l) := by
  induction l with
  | nil => simp [insertDescBy]
  | cons y ys ih =>
      rw [insertDescBy]
      split
      · exact ((ih.cons y).trans (List.Perm.swap x y ys))
      · exact List.Perm.refl _

/-- Stable descending sort permutes. -/
theorem sortDescBy_perm {α β : Type} [LinearOrder β] (key : α → β) (l : List α) :
    (sortDescBy key l).Perm l := by
  induction l with
  | nil => simp [sortDescBy]
  | cons x xs ih =>
      exact (insertDescBy_perm key x (sortDescBy key xs)).trans (ih.cons x)

/-- Sorting then truncating a list of pairwise-distinct `pr_id`s keeps
them pairwise distinct. -/
theorem nodup_map_take_sortDescBy {β : Type} [LinearOrder β] (key : PrRecord → β)
    (limit : ℕ) (l : List PrRecord) (h : (l.map (fun r => r.prId)).Nodup) :
    (((sortDescBy key l).take limit).map (fun r => r.prId)).Nodup := by
  have hperm := (sortDescBy_perm key l).map (fun r => r.prId)
  have hsorted : ((sortDescBy key l).map (fun r => r.prId)).Nodup :=
    hperm.nodup_iff.mpr h
  rw [List.map_take]
  exact List.Nodup.sublist (List.take_sublist _ _) hsorted

/-- Stable hit insertion permutes. -/
theorem insertHit_perm (x : PrHit) (l : List PrHit) :
    (insertHit x l).Perm (x :: l) := by
  induction l with
  | nil => simp [insertHit]
  | cons y ys ih =>
      rw [insertHit]
      split
      · exact ((ih.cons y).trans (List.Perm.swap x y ys))
      · exact List.Perm.refl _

/-- The hybrid features sort permutes its input. -/
theorem sortHits_perm (l : List PrHit) : (sortHits l).Perm l := by
  induction l with
  | nil => simp [sortHits]
  | cons x xs ih => exact (insertHit_perm x (sortHits xs)).trans (ih.cons x)

/-- C5 counterexample.  `direct_top_prs_by_risk` performs no
deduplication: on a backend result set containing the same `pr_id`
twice, it returns two rows with that `pr_id`. -/
theorem top_prs_duplicate_counterexample :
    ((directTopPrsByRisk [duplicatedPrRow, duplicatedPrRow] (fun _ => true) 10).map
        (fun r => r.prId)) = [42, 42]
    ∧ ¬ ((directTopPrsByRisk [duplicatedPrRow, duplicatedPrRow] (fun _ => true) 10).map
        (fun r => r.prId)).Nodup := by
  refine ⟨by decide, by decide⟩

/-- C5 amended.  `direct_prs_list` and `direct_features_list` dedupe by
`pr_id` (no two returned rows share a `pr_id`), but
`direct_top_prs_by_risk` and `hybrid_features` return the backend rows
sorted and truncated with no deduplication: their output size is
exactly `min limit |rows|` (resp. `|hits|`), duplicates included. -/
theorem handler_deduplication_status :
    (∀ (coll : List PrRecord) (pred : PrRecord → Bool) (limit : ℕ) (sl sr : Bool),
      (((directPrsList coll pred limit sl sr).1).map (fun r => r.prId)).Nodup)
    ∧ (∀ (coll : List PrRecord) (pred : PrRecord → Bool) (limit : ℕ),
      ((directFeaturesList coll pred limit).map (fun r => r.prId)).Nodup)
    ∧ (∀ (coll : List PrRecord) (pred : PrRecord → Bool) (limit : ℕ),
      (directTopPrsByRisk coll pred limit).length = min limit (queryPrs coll pred).length)
    ∧ (∀ hits : List PrHit, (hybridFeatures hits).length = hits.length) := by
  refine ⟨?_, ?_, ?_, ?_⟩
  · intro coll pred limit sl sr
    have hu := (dedupeByPrId_nodup_aux (queryPrs coll pred) []).1
    unfold directPrsList
    split_ifs <;> exact nodup_map_take_sortDescBy _ _ _ hu
  · intro coll pred limit
    have hu := (dedupeByPrId_nodup_aux (queryPrs coll pred) []).1
    have hf : ((dedupeByPrId [] (queryPrs coll pred)).filter
        (fun r => stripStr r.feature ≠ "")).map (fun r => r.prId)
        |>.Sublist ((dedupeByPrId [] (queryPrs coll pred)).map (fun r => r.prId)) :=
      (List.filter_sublist _).map _
    exact nodup_map_take_sortDescBy _ _ _ (List.Nodup.sublist hf hu)
  · intro coll pred limit
    unfold directTopPrsByRisk
    rw [List.length_take, (sortDescBy_perm _ _).length_eq]
  · intro hits
    exact (sortHits_perm hits).length_eq

/-! ### C10 — the 1000-row query ceiling -/

/-- The deduplication loop never lengthens a list. -/
theorem dedupeByPrId_length_le (rows : List PrRecord) :
    ∀ seen : List ℤ, (dedupeByPrId seen rows).length ≤ rows.length := by
  induction rows with
  | nil => intro seen; simp [dedupeByPrId]
  | cons x xs ih =>
      intro seen
      rw [dedupeByPrId]
      split
      · exact le_trans (ih seen) (Nat.le_succ _)
      · simpa using ih (x.prId :: seen)

/-- C10.  The scalar query primitives pass a hard-coded `limit=1000`,
so they return at most 1000 rows — a prefix of the matching rows — and
every direct handler (counts, the PR-list summary totals, the
top-file-by-lines aggregation) therefore aggregates over at most the
first 1000 matching rows. -/
theorem query_limit_and_handler_bounds :
    (∀ (coll : List PrRecord) (pred : PrRecord → Bool),
      (queryPrs coll pred).length ≤ 1000
      ∧ (queryPrs coll pred).IsPrefix (coll.filter pred))
    ∧ (∀ (coll : List FileRecord) (pred : FileRecord → Bool),
      (queryFiles coll pred).length ≤ 1000
      ∧ (queryFiles coll pred).IsPrefix (coll.filter pred))
    ∧ (∀ (coll : List PrRecord) (pred : PrRecord → Bool),
      (directPrCount coll pred).totalPrs ≤ 1000
      ∧ (directPrCount coll pred).mergedPrs ≤ 1000)
    ∧ (∀ (coll : List PrRecord) (pred : PrRecord → Bool) (limit : ℕ) (sl sr : Bool),
      ((directPrsList coll pred limit sl sr).2).prsMerged ≤ 1000)
    ∧ (∀ (coll : List FileRecord) (pred : FileRecord → Bool) (t : TopFileResult),
      directTopFileByLines coll pred = some t → t.prCount ≤ 1000) := by
  have hq : ∀ (coll : List PrRecord) (pred : PrRecord → Bool),
      (queryPrs coll pred).length ≤ 1000 := by
    intro coll pred
    simp [queryPrs, milvusQuery]
  have hqf : ∀ (coll : List FileRecord) (pred : FileRecord → Bool),
      (queryFiles coll pred).length ≤ 1000 := by
    intro coll pred
    simp [queryFiles, milvusQuery]
  refine ⟨fun coll pred => ⟨hq coll pred, List.take_prefix _ _⟩,
    fun coll pred => ⟨hqf coll pred, List.take_prefix _ _⟩, ?_, ?_, ?_⟩
  · intro coll pred
    constructor
    · exact hq coll pred
    · exact le_trans (List.length_filter_le _ _) (hq coll pred)
  · intro coll pred limit sl sr
    exact le_trans (dedupeByPrId_length_le (queryPrs coll pred) []) (hq coll pred)
  · intro coll pred t ht
    simp only [directTopFileByLines] at ht
    split_ifs at ht with hempty
    rw [Option.map_eq_some'] at ht
    obtain ⟨fid, _, rfl⟩ := ht
    show filePrCount (queryFiles coll pred) fid ≤ 1000
    rw [filePrCount]
    exact le_trans (List.length_filter_le _ _) (hqf coll pred)

/-- C10 witness: the top-file bound applied to a one-row collection. -/
theorem query_limit_and_handler_bounds_witness :
    directTopFileByLines [exampleFileRecord] (fun _ => true) =
      some { fileId := "module_a.py", totalLinesChanged := 3, prCount := 1 }
    ∧ ({ fileId := "module_a.py", totalLinesChanged := 3, prCount := 1 }
        : TopFileResult).prCount ≤ 1000 :=
  ⟨by decide,
   query_limit_and_handler_bounds.2.2.2.2 [exampleFileRecord] (fun _ => true) _ (by decide)⟩

/-! ### C6 — the large-PR file cap -/

/-- C6 counterexample.  When the forge reports 101 changed files,
`_get_pr_files` drops nothing: the guard fires only above 1000 files,
so the returned list has 101 entries, refuting the 100-entry cap. -/
theorem pr_files_cap_counterexample :
    (processPrFiles (fun _ => none) (List.replicate 101 exampleFileData)).length = 101
    ∧ ¬ (processPrFiles (fun _ => none) (List.replicate 101 exampleFileData)).length ≤ 100 := by
  have h : (processPrFiles (fun _ => none) (List.replicate 101 exampleFileData)).length
      = 101 := by
    simp [processPrFiles]
  exact ⟨h, by rw [h]; decide⟩

/-- C6 amended.  `_get_pr_files` truncates only when the forge reports
*more than 1000* files, keeping the first 100 in that case; otherwise
every reported file is returned.  Hence the returned list never
exceeds 1000 entries (not 100). -/
theorem pr_files_cap_thresholds :
    (∀ (assess : FileData → Option FileRiskAssessment) (l : List FileData),
      (processPrFiles assess l).length ≤ 1000)
    ∧ (∀ (assess : FileData → Option FileRiskAssessment) (l : List FileData),
      1000 < l.length → (processPrFiles assess l).length = 100)
    ∧ (∀ (assess : FileData → Option FileRiskAssessment) (l : List FileData),
      l.length ≤ 1000 → (processPrFiles assess l).length = l.length) := by
  refine ⟨?_, ?_, ?_⟩
  · intro assess l
    unfold processPrFiles
    split_ifs with h
    · simp only [List.length_map, List.length_take]
      omega
    · simp only [List.length_map]
      omega
  · intro assess l h
    unfold processPrFiles
    rw [if_pos h]
    simp only [List.length_map, List.length_take]
    omega
  · intro assess l h
    unfold processPrFiles
    rw [if_neg (by omega)]
    simp

/-- C6 witness: the thresholds applied at 1001 and 5 files. -/
theorem pr_files_cap_thresholds_witness :
    (1000 < (List.replicate 1001 exampleFileData).length
      ∧ (processPrFiles (fun _ => none) (List.replicate 1001 exampleFileData)).length = 100)
    ∧ ((List.replicate 5 exampleFileData).length ≤ 1000
      ∧ (processPrFiles (fun _ => none) (List.replicate 5 exampleFileData)).length = 5) :=
  ⟨⟨by rw [List.length_replicate]; omega,
    pr_files_cap_thresholds.2.1 _ _ (by rw [List.length_replicate]; omega)⟩,
   ⟨by rw [List.length_replicate]; omega,
    by rw [pr_files_cap_thresholds.2.2 _ _ (by rw [List.length_replicate]; omega),
      List.length_replicate]⟩⟩

/-! ### C7 — time-parser defaults -/

/-- C7 counterexample.  `"prs by alice"` is an author-specific query
with no time expression, yet `parse_time` returns the 5-year all-time
window, not the claimed 90-day author default: the 90-day and 2-year
defaults are helper functions that `parse_time` never invokes. -/
theorem parse_time_author_default_counterexample :
    isAuthorSpecificQuery "prs by alice" = true
    ∧ parseTime "prs by alice" 1760227200 = getAllTimeWindow 1760227200
    ∧ parseTime "prs by alice" 1760227200 ≠ getAuthorDefaultTimeWindow 1760227200 := by
  refine ⟨by decide, by decide, by decide⟩

/-- C7 amended.  For every query in which no time expression is found
(none of the keyword cues fire, or none of the extraction patterns
match) — author-specific and risk-specific queries included —
`parse_time` returns the wide 5-year window ending now.  The 90-day
author default and the 2-year risk default exist as separate helpers
(`get_author_default_time_window`, `get_risk_default_time_window`) but
are not applied by `parse_time`. -/
theorem parse_time_no_expression_default (q : String) (now : ℤ)
    (h : hasTimeExpression (toLowerStr q) = false
      ∨ extractTimeExpression (toLowerStr q) = none) :
    parseTime q now = getAllTimeWindow now := by
  unfold parseTime
  rcases h with h | h
  · simp [h]
  · by_cases hh : hasTimeExpression (toLowerStr q)
    · simp [hh, h]
    · simp [hh]

/-- C7 witness: the default applied to the author-specific query. -/
theorem parse_time_no_expression_default_witness :
    (hasTimeExpression (toLowerStr "prs by alice") = false
      ∨ extractTimeExpression (toLowerStr "prs by alice") = none)
    ∧ parseTime "prs by alice" 1760227200 = getAllTimeWindow 1760227200 :=
  ⟨Or.inl (by decide),
   parse_time_no_expression_default "prs by alice" 1760227200 (Or.inl (by decide))⟩

/-! ### C8 — routing of riskiest queries -/

/-- C8 counterexample.  `"How many high risk PRs"` contains the
riskiest cue `high risk`, but `determine_direct_route` tests the count
cue first, so the plan's metric is `count`, not `riskiest`. -/
theorem riskiest_count_metric_counterexample :
    riskiestCue (toLowerStr "How many high risk PRs") = true
    ∧ (routeQuery "How many high risk PRs").metric = "count"
    ∧ (routeQuery "How many high risk PRs").metric ≠ "riskiest" := by
  refine ⟨by decide, by decide, by decide⟩

/-- Every branch of `determine_direct_route` routes direct. -/
theorem determineDirectRoute_route (ql : String) :
    (determineDirectRoute ql).route = "direct" := by
  unfold determineDirectRoute
  split_ifs <;> try rfl
  cases searchPrNumber ql
  · cases searchAuthor ql <;> rfl
  · rfl

/-- C8 amended.  Every query containing a riskiest cue (`riskiest`,
`high risk`, `most risky`) takes the direct route; when none of the
earlier sub-classification cues (features shipped, what shipped, file
changed most, count) fires, the plan is object `prs`, metric
`riskiest`, with limit the explicit `top N` when present (default 20).
In particular `"Top 5 riskiest PRs"` yields
`{route: direct, object: prs, metric: riskiest, limit: 5}`. -/
theorem riskiest_query_routing :
    (∀ q : String, riskiestCue (toLowerStr q) = true → (routeQuery q).route = "direct")
    ∧ (∀ q : String, riskiestCue (toLowerStr q) = true →
        featuresShippedCue (toLowerStr q) = false →
        whatShippedCue (toLowerStr q) = false →
        fileChangedMostCue (toLowerStr q) = false →
        countCue (toLowerStr q) = false →
        (routeQuery q).object = "prs" ∧ (routeQuery q).metric = "riskiest"
          ∧ (routeQuery q).limit = some ((searchTopN (toLowerStr q)).getD 20))
    ∧ routeQuery "Top 5 riskiest PRs" =
        { route := "direct", object := "prs", metric := "riskiest",
          semanticTerms := [], limit := some 5, prNumber := none,
          author := none, specificFile := none } := by
  have htrig : ∀ q : String, riskiestCue (toLowerStr q) = true →
      directTriggers (toLowerStr q) = true := by
    intro q h
    unfold directTriggers
    rw [h]
    simp
  have hroute : ∀ q : String, riskiestCue (toLowerStr q) = true →
      routeQuery q = determineDirectRoute (toLowerStr q) := by
    intro q h
    unfold routeQuery
    simp [htrig q h]
  refine ⟨?_, ?_, by decide⟩
  · intro q h
    rw [hroute q h]
    exact determineDirectRoute_route _
  · intro q h hfs hws hfcm hcnt
    rw [hroute q h]
    unfold determineDirectRoute
    rw [if_neg (by simp [hfs]), if_neg (by simp [hws]), if_neg (by simp [hfcm]),
      if_neg (by simp [hcnt]), if_pos (by simp [h])]
    exact ⟨rfl, rfl, rfl⟩

/-- C8 witness: the riskiest branch applied to the scenario query. -/
theorem riskiest_query_routing_witness :
    riskiestCue (toLowerStr "Top 5 riskiest PRs") = true
    ∧ (routeQuery "Top 5 riskiest PRs").route = "direct"
    ∧ (routeQuery "Top 5 riskiest PRs").metric = "riskiest" :=
  ⟨by decide, riskiest_query_routing.1 "Top 5 riskiest PRs" (by decide),
   ((riskiest_query_routing.2.1 "Top 5 riskiest PRs" (by decide) (by decide)
     (by decide) (by decide) (by decide)).2).1⟩

/-! ### C9 — quoting of user-provided strings in filter expressions -/

/-- A pattern is a prefix of itself followed by anything. -/
theorem listStartsWith_append_self : ∀ key t : List Char,
    listStartsWith key (key ++ t) = true := by
  intro key
  induction key with
  | nil => intro t; simp [listStartsWith]
  | cons c k ih => intro t; simp [listStartsWith, ih]

/-- A prefix test only looks at the first `key.length` characters. -/
theorem listStartsWith_append_indep : ∀ (key A rest : List Char),
    key.length ≤ A.length →
    listStartsWith key (A ++ rest) = listStartsWith key A := by
  intro key
  induction key with
  | nil => intro A rest _; simp [listStartsWith]
  | cons c k ih =>
      intro A rest h
      cases A with
      | nil => simp at h
      | cons a A' =>
          simp only [List.cons_append, listStartsWith, List.append_eq]
          rw [ih A' rest (by simpa using h)]

/-- Scanning past a block in which the key never matches. -/
theorem findAfterSeq_append_skip (key : List Char) :
    ∀ P rest : List Char,
      (∀ i, i < P.length → listStartsWith key (P.drop i ++ rest) = false) →
      findAfterSeq key (P ++ rest) = findAfterSeq key rest := by
  intro P
  induction P with
  | nil => intro rest _; simp
  | cons c P' ih =>
      intro rest h
      have h0 : listStartsWith key (c :: (P' ++ rest)) = false := by
        have := h 0 (Nat.succ_pos _)
        simpa using this
      rw [List.cons_append]
      simp only [findAfterSeq, h0, Bool.false_eq_true, if_false]
      exact ih rest (fun i hi => by simpa using h (i + 1) (by simpa using hi))

/-- Finding the key at the head of the remaining text. -/
theorem findAfterSeq_self (key t : List Char) :
    findAfterSeq key (key ++ t) = some t := by
  cases key with
  | nil => cases t <;> simp [findAfterSeq, listStartsWith]
  | cons k ks =>
      have h : listStartsWith (k :: ks) ((k :: ks) ++ t) = true :=
        listStartsWith_append_self _ _
      rw [List.cons_append] at h ⊢
      rw [findAfterSeq, h, ← List.cons_append, List.drop_left]
      simp

/-- The key never occurs inside the concrete expression head. -/
theorem exprHead_no_key (rest : List Char) :
    ∀ i, i < exprHead.length →
      listStartsWith repoNameKey (exprHead.drop i ++ (repoNameKey ++ rest)) = false := by
  have hdec : ∀ i, i < exprHead.length →
      listStartsWith repoNameKey (exprHead.drop i ++ repoNameKey) = false := by decide
  intro i hi
  rw [← List.append_assoc,
    listStartsWith_append_indep _ _ _ (by rw [List.length_append]; omega)]
  exact hdec i hi

/-- Reading a quote-free literal up to its closing quote. -/
theorem takeUntilQuote_no_quote :
    ∀ l : List Char, (∀ c ∈ l, ¬ c = '"') → ∀ r : List Char,
      takeUntilQuote (l ++ '"' :: r) = some l := by
  intro l
  induction l with
  | nil => intro _ r; simp [takeUntilQuote]
  | cons c t ih =>
      intro h r
      have hc : (c == '"') = false := by
        simpa using h c (List.mem_cons_self _ _)
      rw [List.cons_append, takeUntilQuote, hc]
      simp [ih (fun d hd => h d (List.mem_cons_of_mem _ hd)) r]

/-- Reading a literal that itself contains a quote stops at that
quote. -/
theorem takeUntilQuote_first_quote :
    ∀ l : List Char, l.contains '"' = true → ∀ r : List Char,
      takeUntilQuote (l ++ r) = some (l.takeWhile (fun c => !(c == '"'))) := by
  intro l
  induction l with
  | nil => intro h; simp at h
  | cons c t ih =>
      intro h r
      by_cases hc : c = '"'
      · subst hc
        simp [takeUntilQuote, List.takeWhile]
      · have hc' : (c == '"') = false := by simp [hc]
        have ht : t.contains '"' = true := by
          rcases (by simpa using h : '"' = c ∨ '"' ∈ t) with h1 | h2
          · exact absurd h1.symm hc
          · simpa using h2
        rw [List.cons_append, takeUntilQuote, hc']
        rw [ih ht r]
        simp [List.takeWhile_cons, hc']

/-- A list containing a quote is never its own quote-free prefix. -/
theorem takeWhile_ne_of_contains :
    ∀ l : List Char, l.contains '"' = true →
      l.takeWhile (fun c => !(c == '"')) ≠ l := by
  intro l
  induction l with
  | nil => intro h; simp at h
  | cons c t ih =>
      intro h heq
      by_cases hc : c = '"'
      · subst hc
        simp [List.takeWhile_cons] at heq
      · have hc' : (c == '"') = false := by simp [hc]
        have ht : t.contains '"' = true := by
          rcases (by simpa using h : '"' = c ∨ '"' ∈ t) with h1 | h2
          · exact absurd h1.symm hc
          · simpa using h2
        rw [List.takeWhile_cons] at heq
        simp only [hc', Bool.not_false, if_true, List.cons.injEq, true_and] at heq
        exact ih ht heq

/-- C9 counterexample.  With the repository name `my"repo` the built
filter expression's `repo_name` literal parses as `my` — the embedded
quote terminates the string literal early, so the expression no longer
filters on the provided name. -/
theorem filter_quote_injection_counterexample :
    extractRepoNameLiteral (buildPrsListExpr "my\"repo" 0 253402300799 none none)
      = some "my"
    ∧ ("my" : String) ≠ "my\"repo" := by
  refine ⟨by decide, by decide⟩

/-- C9 amended.  The query layer performs no quote escaping: for every
quote-free repository name the built expression's `repo_name` literal
round-trips to exactly that name, but for every name containing a
double quote the parsed literal differs from the name — the expression
denotes a filter on a different (truncated) string.  (The same
unescaped interpolation is used for the author and filename filters.) -/
theorem filter_literal_escaping :
    (∀ repo : String, (∀ c ∈ repo.data, ¬ c = '"') →
      extractRepoNameLiteral (buildPrsListExpr repo 0 253402300799 none none)
        = some repo)
    ∧ (∀ repo : String, repo.data.contains '"' = true →
      extractRepoNameLiteral (buildPrsListExpr repo 0 253402300799 none none)
        ≠ some repo) := by
  have hfind : ∀ repo : String,
      findAfterSeq ("repo_name == \"".toList)
        ((buildPrsListExpr repo 0 253402300799 none none).toList)
        = some (repo.data ++ '"' :: []) := by
    intro repo
    show findAfterSeq repoNameKey
      (exprHead ++ (repoNameKey ++ (repo.data ++ '"' :: []))) = _
    rw [findAfterSeq_append_skip _ _ _ (exprHead_no_key _), findAfterSeq_self]
  constructor
  · intro repo h
    rw [extractRepoNameLiteral, hfind repo]
    show Option.map (fun l => String.mk l) (takeUntilQuote (repo.data ++ '"' :: []))
      = some repo
    rw [takeUntilQuote_no_quote repo.data h []]
    rfl
  · intro repo h heq
    rw [extractRepoNameLiteral, hfind repo] at heq
    have heq' : Option.map (fun l => String.mk l)
        (takeUntilQuote (repo.data ++ '"' :: [])) = some repo := heq
    rw [takeUntilQuote_first_quote repo.data h ('"' :: [])] at heq'
    simp only [Option.map_some', Option.some.injEq] at heq'
    have hdata : repo.data.takeWhile (fun c => !(c == '"')) = repo.data :=
      congrArg String.data heq'
    exact takeWhile_ne_of_contains repo.data h hdata

/-- C9 witness: the round-trip on a quote-free name and the breakage on
a quoted one. -/
theorem filter_literal_escaping_witness :
    extractRepoNameLiteral (buildPrsListExpr "acme/app" 0 253402300799 none none)
      = some "acme/app"
    ∧ extractRepoNameLiteral (buildPrsListExpr "my\"repo" 0 253402300799 none none)
      ≠ some "my\"repo" :=
  ⟨filter_literal_escaping.1 "acme/app" (by decide),
   filter_literal_escaping.2 "my\"repo" (by decide)⟩

end WhatTheRepo
